import Mathlib

/-!
Verification development for the geolistic repository (src/lib/index.js and
src/geolistic-cli.js): a shallow embedding of the buffered streaming ETL
pipeline (addFileToElastic with its commit buffer and helperAddBuffer store
callback), the country catalog loader (getGeoNameCountries), the bounded
batch downloader (downloadGeoNameCountryFiles) and the configuration setter
setElasticPath, together with theorems settling the frozen claims about them.

JavaScript values that cross the relevant API boundaries are modelled with a
small JSVal universe; missing array slots (record[i] for i beyond the parsed
tuple) are modelled as Option String (none = undefined); machine numbers in
the claims' scope are natural counters, so Nat is used for them.  Stateful
streaming code is modelled as a recursive trace generator: each invocation
produces the ordered list of its observable events (file-system open, bulk
request to the store, progress-hook call, callback invocation, uncaught
JavaScript exception).
-/

namespace Geolistic

/-- Model of the JavaScript values that can be passed for `countryCode` or
`elasticPath` (src/lib/index.js takes untyped parameters). -/
inductive JSVal where
  | undefined : JSVal
  | null : JSVal
  | bool : Bool → JSVal
  | num : Int → JSVal
  | str : String → JSVal
deriving DecidableEq, Repr

/-- JavaScript string coercion as used by `"..." + value` in the error
messages of src/lib/index.js (line 437: `"Invalid countryCode '" + countryCode + "'"`). -/
def jsToString : JSVal → String
  | JSVal.undefined => "undefined"
  | JSVal.null => "null"
  | JSVal.bool true => "true"
  | JSVal.bool false => "false"
  | JSVal.num n => toString n
  | JSVal.str s => s

/-- JavaScript `String.prototype.toLocaleUpperCase` restricted to the ASCII
country codes the pipeline handles (src/lib/index.js line 456). -/
def strUpper (s : String) : String := String.mk (s.toList.map Char.toUpper)

/-- Character-list test: `p` starts the list `l` (used to model
`String.prototype.indexOf` in helperAddBuffer, lines 400-404). -/
def charsStart : List Char → List Char → Bool
  | [], _ => true
  | _ :: _, [] => false
  | p :: ps, c :: cs => p == c && charsStart ps cs

/-- Character-list test: `p` occurs contiguously inside `l`. -/
def charsHave (p : List Char) : List Char → Bool
  | [] => charsStart p []
  | c :: cs => charsStart p (c :: cs) || charsHave p cs

/-- Model of `haystack.indexOf(needle) !== -1` (src/lib/index.js lines 400 and 403). -/
def strContains (s pat : String) : Bool := charsHave pat.toList s.toList

/-- JavaScript `String.prototype.split` with a one-character separator,
on the character list. -/
def splitChar (sep : Char) : List Char → List (List Char)
  | [] => [[]]
  | c :: cs =>
    if c == sep then [] :: splitChar sep cs
    else
      match splitChar sep cs with
      | [] => [[c]]
      | h :: t => (c :: h) :: t

/-- JavaScript `s.split(sep)` for a one-character separator (always returns at
least one piece; `"".split(sep)` is `[""]`), as used by setElasticPath
(line 246) and by the hook-argument plumbing of the downloader (line 674). -/
def jsSplitStr (s : String) (sep : Char) : List String :=
  (splitChar sep s.toList).map (fun cs => String.mk cs)

/-!  ## Module-local configuration state

src/lib/index.js lines 126-130: the `local` object holds `elasticIndex`
(initially "geonames"), `elasticType` (initially "geoname") and `dataPath`
(initially `os.tmpdir()`, whose concrete value is immaterial, modelled as
"/tmp").  The property `local.elasticPath` does not exist initially; it is
created only by setElasticPath (line 259), hence `Option String`. -/

/-- The module-level `local` configuration object of src/lib/index.js. -/
structure LocalCfg where
  elasticIndex : String := "geonames"
  elasticType : String := "geoname"
  elasticPath : Option String := none
  dataPath : String := "/tmp"
deriving DecidableEq, Repr

/-- The configuration as initialised at module load (src/lib/index.js lines 126-129). -/
def defaultLocal : LocalCfg := {}

/-- api.setElasticPath (src/lib/index.js lines 240-263).  A thrown exception is
modelled as `Except.error` with the thrown message.  Note the source stores the
type segment into `local.elasticPath` (line 259), not `local.elasticType`. -/
def setElasticPath (cfg : LocalCfg) (pathParam : JSVal) : Except String LocalCfg :=
  match pathParam with
  | JSVal.str s =>
    let parts := jsSplitStr s '/'
    if parts.length ≠ 2 then
      Except.error "elasticPath must be in the form of \x27index/type\x27"
    else if (parts.getD 0 "").length < 1 || (parts.getD 1 "").length < 1 then
      Except.error "Index or Type should not be empty"
    else
      Except.ok { cfg with elasticIndex := parts.getD 0 "", elasticPath := some (parts.getD 1 "") }
  | _ => Except.error "elasticPath is not a valid string"

/-- One setElasticPath call as the caller observes the module state: a throw
leaves `local` untouched (the assignments at lines 258-259 sit in the final
else branch). -/
def applyElasticPathUpdate (cfg : LocalCfg) (s : String) : LocalCfg :=
  match setElasticPath cfg (JSVal.str s) with
  | Except.ok c => c
  | Except.error _ => cfg

/-- A sequence of setElasticPath calls applied to the module state. -/
def applyElasticPathUpdates (cfg : LocalCfg) (ss : List String) : LocalCfg :=
  ss.foldl applyElasticPathUpdate cfg

/-!  ## The location record mapper -/

/-- JavaScript string coercion of a possibly-undefined field, as in the
`location` concatenation at lines 499-500. -/
def jsStr : Option String → String
  | none => "undefined"
  | some s => s

/-- The document body built for one parsed record by the transformer of
addFileToElastic (src/lib/index.js lines 495-500): the 19 positional fields of
`local.geonameLocationMapper` (lines 56-76) plus the synthesized `location`
field `"lat,lon"`.  A source field beyond the parsed tuple is `undefined`,
hence `Option String`. -/
structure GeonameDoc where
  geonameId : Option String
  name : Option String
  asciiName : Option String
  alternateNames : Option String
  latitude : Option String
  longitude : Option String
  featureClass : Option String
  featureCode : Option String
  country : Option String
  cc2 : Option String
  admin1 : Option String
  admin2 : Option String
  admin3 : Option String
  admin4 : Option String
  population : Option String
  elevation : Option String
  dem : Option String
  timezone : Option String
  modDate : Option String
  location : String
deriving DecidableEq, Repr

/-- Field mapping of one parsed record (a tab-separated tuple) through
`local.geonameLocationMapper`, lines 495-500 of src/lib/index.js. -/
def mapRecord (r : List String) : GeonameDoc where
  geonameId := r[0]?
  name := r[1]?
  asciiName := r[2]?
  alternateNames := r[3]?
  latitude := r[4]?
  longitude := r[5]?
  featureClass := r[6]?
  featureCode := r[7]?
  country := r[8]?
  cc2 := r[9]?
  admin1 := r[10]?
  admin2 := r[11]?
  admin3 := r[12]?
  admin4 := r[13]?
  population := r[14]?
  elevation := r[15]?
  dem := r[16]?
  timezone := r[17]?
  modDate := r[18]?
  location := jsStr r[4]? ++ "," ++ jsStr r[5]?

/-- One slot of the commit buffer `output`: either a bulk index directive
(lines 502-504: `{index: {_index, _type, _id: record[0]}}`) or a document
body (line 508: the mapped record). -/
inductive Entry where
  | directive : String → String → Option String → Entry
  | doc : GeonameDoc → Entry
deriving DecidableEq, Repr

/-- The directive pushed for record `r` (src/lib/index.js lines 502-504),
carrying `local.elasticIndex`, `local.elasticType` and the record's geonameId
(`record[0]`) as the document id. -/
def directiveFor (idx typ : String) (r : List String) : Entry :=
  Entry.directive idx typ r[0]?

/-- The two buffer slots contributed by one kept record, in push order. -/
def pairFor (idx typ : String) (r : List String) : List Entry :=
  [directiveFor idx typ r, Entry.doc (mapRecord r)]

/-- The buffer contents produced by a list of kept records. -/
def flatPairs (idx typ : String) : List (List String) → List Entry
  | [] => []
  | r :: rs => directiveFor idx typ r :: Entry.doc (mapRecord r) :: flatPairs idx typ rs

/-!  ## The class filter -/

/-- Whether a record passes the feature-class filter (src/lib/index.js lines
479-493): with `featureClassFilters` null (`none`) or an empty array, every
record passes; otherwise the record is kept iff `record[6]` (the
`featureClass` slot) strictly equals one of the filter strings. -/
def keepsRecord (filters : Option (List String)) (r : List String) : Bool :=
  match filters with
  | none => true
  | some fs => if fs.isEmpty then true else fs.any (fun f => r[6]? == some f)

/-- Number of records of `l` that pass the filter. -/
def keptCount (filters : Option (List String)) (l : List (List String)) : Nat :=
  (l.filter (fun r => keepsRecord filters r)).length

/-- The filter configurations under which no filtering happens
(`featureClassFilters` null, i.e. option absent, or an empty array — line 479). -/
def filterInactive (filters : Option (List String)) : Prop :=
  filters = none ∨ filters = some []

/-!  ## The store callback of helperAddBuffer -/

/-- Outcome of the error-classification code in the bulk callback of
helperAddBuffer (src/lib/index.js lines 393-422).  The branch for a message
containing "index is missing" or "type is missing" evaluates the undeclared
identifiers `elasicIndex` / `elasicType` (lines 410 and 413); under the file's
`'use strict'` this throws a ReferenceError out of the callback instead of
reaching `cb(err)`. -/
inductive BulkFail where
  | passthrough : Option String → BulkFail
  | refErr : String → BulkFail
deriving DecidableEq, Repr

/-- Classification of a store rejection by the bulk callback
(src/lib/index.js lines 393-422).  The argument is `err.message`
(`none` when the error object carries no message, in which case the original
error is passed to `cb` unchanged). -/
def handleBulkResult (msg : Option String) : BulkFail :=
  match msg with
  | none => BulkFail.passthrough none
  | some m =>
    if strContains m "index is missing" then BulkFail.refErr "elasicIndex"
    else if strContains m "type is missing" then BulkFail.refErr "elasicType"
    else BulkFail.passthrough (some m)

/-!  ## Observable events of one addFileToElastic invocation -/

/-- One observable event of an addFileToElastic run.  `storeBulk` records a
`client.bulk` request: whether it is the stream-end flush (line 528) rather
than a threshold flush (line 510), the buffer passed as `body`, the value of
`recordsProcessed` at that moment, whether the store acknowledged it, and the
contents of `output` right after the bulk callback ran (line 426 clears it on
success only).  `hook` records a `bufferAdded` call (line 391, issued in the
bulk callback before the error check).  `jsThrow` records an uncaught
exception escaping a stream callback. -/
inductive Ev where
  | fsOpen : String → Ev
  | storeBulk : Bool → List Entry → Nat → Bool → List Entry → Ev
  | hook : Nat → Ev
  | cbOk : Nat → Nat → Ev
  | cbErr : String → Ev
  | cbStoreErr : Option String → Ev
  | jsThrow : String → Ev
deriving DecidableEq, Repr

/-- The event the bulk callback produces when the store rejected the commit:
either `cb(err)` with the original error, or an uncaught ReferenceError
(src/lib/index.js lines 393-422). -/
def bulkFailEv (msg : Option String) : Ev :=
  match handleBulkResult msg with
  | BulkFail.passthrough m => Ev.cbStoreErr m
  | BulkFail.refErr n => Ev.jsThrow n

/-- The record-transform / buffer / commit cycle of addFileToElastic
(src/lib/index.js lines 475-538), as a trace generator.

`b2` is the already-doubled threshold (`bufferRecords * 2`, line 457);
`store k` is the store's answer to the `k`-th bulk request (`none` = success,
`some msg?` = rejection with optional `err.message`); the remaining arguments
are the stream state: records still to arrive, the `output` buffer,
`recordsProcessed`, `recordsAdded`, and the commit counter.

Per record (transformer, lines 475-522): `recordsProcessed` increments, the
class filter may drop the record, otherwise the directive and the document
body are pushed and `recordsAdded` increments; when the push makes the buffer
length reach `b2`, helperAddBuffer issues one bulk request and only its
success callback (`next`) lets the stream continue — a rejection reaches `cb`
(or throws) and the transform callback is never called, stalling the stream.
At stream end ('finish', lines 524-538) a non-empty buffer is flushed once
before `cb(null, {processed, added})`.  The `bufferAdded` hook fires inside
every bulk callback (line 391), before the error check. -/
def runAux (idx typ : String) (b2 : Nat) (filters : Option (List String))
    (store : Nat → Option (Option String)) :
    List (List String) → List Entry → Nat → Nat → Nat → List Ev
  | [], output, processed, added, k =>
    if output.isEmpty then [Ev.cbOk processed added]
    else
      match store k with
      | none =>
        [Ev.storeBulk true output processed true [], Ev.hook processed, Ev.cbOk processed added]
      | some msg =>
        [Ev.storeBulk true output processed false output, Ev.hook processed, bulkFailEv msg]
  | r :: rs, output, processed, added, k =>
    if keepsRecord filters r then
      if (output ++ pairFor idx typ r).length = b2 then
        match store k with
        | none =>
          Ev.storeBulk false (output ++ pairFor idx typ r) (processed + 1) true []
            :: Ev.hook (processed + 1)
            :: runAux idx typ b2 filters store rs [] (processed + 1) (added + 1) (k + 1)
        | some msg =>
          [Ev.storeBulk false (output ++ pairFor idx typ r) (processed + 1) false
              (output ++ pairFor idx typ r),
            Ev.hook (processed + 1), bulkFailEv msg]
      else
        runAux idx typ b2 filters store rs (output ++ pairFor idx typ r)
          (processed + 1) (added + 1) k
    else
      runAux idx typ b2 filters store rs output (processed + 1) added k

/-!  ## addFileToElastic entry -/

/-- Options bag of addFileToElastic (src/lib/index.js lines 347-349, 365-366,
372).  `bufferRecords` is `none` when the option is absent; the `bufferAdded`
hook is side-effect only, so the trace records hook events unconditionally. -/
structure Options where
  bufferRecords : Option Nat := none
  classFilters : Option (List String) := none
deriving DecidableEq, Repr

/-- `optionsOrCb.bufferRecords || 1000` (src/lib/index.js line 372): a falsy
value — absent option or 0 — silently becomes the default 1000. -/
def effectiveBufferRecords : Option Nat → Nat
  | none => 1000
  | some n => if n = 0 then 1000 else n

/-- The validation test of src/lib/index.js line 435:
`!countryCode || typeof countryCode !== 'string' || countryCode.length !== 2`.
A non-string value is rejected by the typeof test (non-strings that are truthy
included); a string fails iff it is empty (falsy) or its length differs
from 2, i.e. iff its length differs from 2. -/
def ccInvalid : JSVal → Bool
  | JSVal.str s => s == "" || s.length ≠ 2
  | _ => true

/-- Test-mode country code substitution (src/lib/index.js lines 442-444):
`'00'` becomes `'NU'`; afterwards the code is upper-cased (line 456). -/
def addCode (v : JSVal) : String :=
  strUpper (if v = JSVal.str "00" then "NU" else jsToString v)

/-- Test-mode data path substitution (src/lib/index.js line 445). -/
def addDataPath (cfg : LocalCfg) (v : JSVal) : String :=
  if v = JSVal.str "00" then "./test/data/" else cfg.dataPath

/-- `path.join(dataPath, countryCode + '.txt')` (src/lib/index.js line 464),
modelled as separator insertion — the exact normalisation is immaterial, the
path only feeds the file-system oracle. -/
def pathJoin (a b : String) : String := a ++ "/" ++ b

/-- The source file path resolved by addFileToElastic. -/
def addPath (cfg : LocalCfg) (v : JSVal) : String :=
  pathJoin (addDataPath cfg v) (addCode v ++ ".txt")

/-- The effective store: in test mode the mock client
`{bulk: function (input, fn) { fn(null, null) }}` (lines 448-452) acknowledges
every commit; otherwise the caller-provided store answers. -/
def addStore (v : JSVal) (store : Nat → Option (Option String)) :
    Nat → Option (Option String) :=
  if v = JSVal.str "00" then (fun _ => none) else store

/-- api.addFileToElastic (src/lib/index.js lines 356-542) as a trace
generator.  `fsy` is the file-system oracle: the parsed record list of a
path, or `none` when opening it fails with ENOENT (the `input.on('error')`
handler of lines 465-473 then decorates the error).  Validation of
`countryCode` (line 435) happens before any file-system, network or store
activity; on failure the trace is the single error callback. -/
def addFileToElastic (cfg : LocalCfg) (countryCode : JSVal) (opts : Options)
    (fsy : String → Option (List (List String)))
    (store : Nat → Option (Option String)) : List Ev :=
  if ccInvalid countryCode then
    [Ev.cbErr ("Invalid countryCode \x27" ++ jsToString countryCode
      ++ "\x27, should be two char string")]
  else
    Ev.fsOpen (addPath cfg countryCode) ::
    match fsy (addPath cfg countryCode) with
    | none =>
      [Ev.cbErr ("Missing datafile for " ++ addCode countryCode ++ " at "
        ++ addPath cfg countryCode)]
    | some l =>
      runAux cfg.elasticIndex cfg.elasticType
        (2 * effectiveBufferRecords opts.bufferRecords)
        opts.classFilters (addStore countryCode store) l [] 0 0 0

/-!  ## Trace observers -/

/-- Arguments of the `bufferAdded` hook calls of a trace, in order. -/
def hookArgsOf : List Ev → List Nat
  | [] => []
  | Ev.hook n :: t => n :: hookArgsOf t
  | Ev.fsOpen _ :: t => hookArgsOf t
  | Ev.storeBulk _ _ _ _ _ :: t => hookArgsOf t
  | Ev.cbOk _ _ :: t => hookArgsOf t
  | Ev.cbErr _ :: t => hookArgsOf t
  | Ev.cbStoreErr _ :: t => hookArgsOf t
  | Ev.jsThrow _ :: t => hookArgsOf t

/-- `recordsProcessed` at each bulk request of a trace, in order. -/
def bulkProcessedOf : List Ev → List Nat
  | [] => []
  | Ev.storeBulk _ _ p _ _ :: t => p :: bulkProcessedOf t
  | Ev.fsOpen _ :: t => bulkProcessedOf t
  | Ev.hook _ :: t => bulkProcessedOf t
  | Ev.cbOk _ _ :: t => bulkProcessedOf t
  | Ev.cbErr _ :: t => bulkProcessedOf t
  | Ev.cbStoreErr _ :: t => bulkProcessedOf t
  | Ev.jsThrow _ :: t => bulkProcessedOf t

/-- Number of threshold-triggered (mid-stream) bulk requests of a trace. -/
def interBulkCount : List Ev → Nat
  | [] => 0
  | Ev.storeBulk false _ _ _ _ :: t => interBulkCount t + 1
  | Ev.storeBulk true _ _ _ _ :: t => interBulkCount t
  | Ev.fsOpen _ :: t => interBulkCount t
  | Ev.hook _ :: t => interBulkCount t
  | Ev.cbOk _ _ :: t => interBulkCount t
  | Ev.cbErr _ :: t => interBulkCount t
  | Ev.cbStoreErr _ :: t => interBulkCount t
  | Ev.jsThrow _ :: t => interBulkCount t

/-- Number of stream-end bulk requests of a trace. -/
def finalBulkCount : List Ev → Nat
  | [] => 0
  | Ev.storeBulk true _ _ _ _ :: t => finalBulkCount t + 1
  | Ev.storeBulk false _ _ _ _ :: t => finalBulkCount t
  | Ev.fsOpen _ :: t => finalBulkCount t
  | Ev.hook _ :: t => finalBulkCount t
  | Ev.cbOk _ _ :: t => finalBulkCount t
  | Ev.cbErr _ :: t => finalBulkCount t
  | Ev.cbStoreErr _ :: t => finalBulkCount t
  | Ev.jsThrow _ :: t => finalBulkCount t

/-- Concatenation of the buffers passed to the store across a trace. -/
def flattenBulkBufs : List Ev → List Entry
  | [] => []
  | Ev.storeBulk _ buf _ _ _ :: t => buf ++ flattenBulkBufs t
  | Ev.fsOpen _ :: t => flattenBulkBufs t
  | Ev.hook _ :: t => flattenBulkBufs t
  | Ev.cbOk _ _ :: t => flattenBulkBufs t
  | Ev.cbErr _ :: t => flattenBulkBufs t
  | Ev.cbStoreErr _ :: t => flattenBulkBufs t
  | Ev.jsThrow _ :: t => flattenBulkBufs t

/-- The last event of a trace (the completion the caller observes). -/
def finalCb : List Ev → Option Ev
  | [] => none
  | [e] => some e
  | _ :: e :: t => finalCb (e :: t)

/-- The kind of the directive slot: the `_type` field of a directive entry,
`none` for a document body. -/
def entryType : Entry → Option String
  | Entry.directive _ t _ => some t
  | Entry.doc _ => none

/-!  ## Country Catalog Loader (getGeoNameCountries) -/

/-- One element pushed onto `countries` by the transformer of
getGeoNameCountries (src/lib/index.js line 326): the whole record when
`allColoumns`, else `record[0]`. -/
inductive CountryDatum where
  | full : List String → CountryDatum
  | code : Option String → CountryDatum
deriving DecidableEq, Repr

/-- What the caller of getGeoNameCountries observes.  `cbErr` (the callback
invoked with an error) is an outcome the surrounding code could produce in
principle; `uncaught` is a stream `'error'` event with no listener attached. -/
inductive CatalogOutcome where
  | cbOk : List CountryDatum → CatalogOutcome
  | cbErr : String → CatalogOutcome
  | uncaught : String → CatalogOutcome
deriving DecidableEq, Repr

/-- `record[0].startsWith('#')` (src/lib/index.js line 324); the parser emits
at least one column per line, so the head field stands for `record[0]`. -/
def rec0Hash (r : List String) : Bool := charsStart ['#'] (r.headD "").toList

/-- api.getGeoNameCountries (src/lib/index.js lines 302-341) as a function of
the download/parse outcome.  The pipe chain at line 333 and the single
`'finish'` handler at line 335 are the only wiring: no `'error'` handler is
registered on the download stream, the parser or the transformer, and `pipe`
does not forward errors, so a failed download or parse never reaches `cb`; the
error surfaces as an unhandled stream `'error'` event and `'finish'` (hence
`cb`) never fires.  On success the non-comment records are delivered in
order. -/
def getGeoNameCountries (dl : Except String (List (List String)))
    (allColoumns : Bool) : CatalogOutcome :=
  match dl with
  | Except.error e => CatalogOutcome.uncaught e
  | Except.ok recs =>
    CatalogOutcome.cbOk ((recs.filter (fun r => !rec0Hash r)).map
      (fun r => if allColoumns then CountryDatum.full r else CountryDatum.code r[0]?))

/-!  ## Batch Downloader (downloadGeoNameCountryFiles) -/

/-- Observable events of one downloadGeoNameCountryFiles invocation. -/
inductive DlEv where
  | preHook : List String → DlEv
  | doDownload : List String → DlEv
  | postHook : List String → DlEv
  | cbOk : Nat → DlEv
  | cbErr : String → DlEv
deriving DecidableEq, Repr

/-- The wave-filling loop of downloadNextFiles (src/lib/index.js lines
658-667): shift up to `p` URLs from `downloadsLeft` into the queue, breaking
right after the shift that empties the remainder.  The `left = []` loop entry
(a shift from an empty array) is unreachable in the program — the initial call
has at least one URL and the recursive call is guarded by
`downloadsLeft.length` — and is modelled as stopping. -/
def takeWaveGo : Nat → List String → List String → List String × List String
  | 0, left, q => (q, left)
  | _ + 1, [], q => (q, [])
  | n + 1, u :: rest, q =>
    if rest.isEmpty then (q ++ [u], rest) else takeWaveGo n rest (q ++ [u])

/-- One wave's queue and the remaining URLs. -/
def takeWave (p : Nat) (left : List String) : List String × List String :=
  takeWaveGo p left []

/-- `Array.prototype.join(",")`. -/
def commaJoin : List String → String
  | [] => ""
  | [x] => x
  | x :: y :: t => x ++ "," ++ commaJoin (y :: t)

/-- `downloadQueue.join(",").split(",")`, the copy of the wave handed to the
`preDownload`/`postDownload` hooks (src/lib/index.js lines 674 and 689). -/
def joinSplit (q : List String) : List String := jsSplitStr (commaJoin q) ','

/-- The rejection reason of `Promise.all` over a wave: some failed download's
error.  Temporally it is the first promise to reject; the model takes the
first URL in wave order that fails (which one is immaterial to the claims:
only that the wave fails, with some transport error, is observed). -/
def firstError (dl : String → Option String) : List String → Option String
  | [] => none
  | u :: us =>
    match dl u with
    | some e => some e
    | none => firstError dl us

/-- The recursive wave loop `downloadNextFiles` (src/lib/index.js lines
650-703) as a trace generator.  `dl u` is the downloader collaborator's
outcome for URL `u` (`none` = success).  Each wave: fill the queue, run the
pre-hook, issue the wave's downloads concurrently, and either fail the whole
call with one `cb(Error("Error downloading ..."))` (lines 678-682, the
`hasErrors` flag suppresses the `.then` continuation) or run the post-hook,
add the wave to `filesProcessed`, and recurse — so wave N+1 starts only after
wave N's `Promise.all` resolved.  `fuel` bounds the recursion depth; any
`fuel ≥ left.length` is enough when the parallelism is at least 1, so the
fuel-exhausted branch is never reached on the runs the theorems speak about. -/
def waveRunF (p : Nat) (dl : String → Option String) :
    Nat → Nat → List String → List DlEv
  | fuel, filesProcessed, left =>
    if (takeWave p left).1.isEmpty then [DlEv.cbOk filesProcessed]
    else
      DlEv.preHook (joinSplit (takeWave p left).1)
        :: DlEv.doDownload (takeWave p left).1
        :: match firstError dl (takeWave p left).1 with
          | some e =>
            [DlEv.cbErr ("Error downloading " ++ commaJoin (takeWave p left).1 ++ ": " ++ e)]
          | none =>
            DlEv.postHook (joinSplit (takeWave p left).1)
              :: if (takeWave p left).2.isEmpty then
                  [DlEv.cbOk (filesProcessed + (takeWave p left).1.length)]
                else
                  match fuel with
                  | 0 => []
                  | fuel2 + 1 =>
                    waveRunF p dl fuel2 (filesProcessed + (takeWave p left).1.length)
                      (takeWave p left).2

/-- `optionsOrCb.parallelDownloads || 2` (src/lib/index.js line 611). -/
def effParallel : Option Nat → Nat
  | none => 2
  | some n => if n = 0 then 2 else n

/-- `local.geonameDownloadUrl.replace("%s", s)` (line 645): the template
`"http://download.geonames.org/export/dump/%s"` ends in its single
placeholder. -/
def geonameUrl (s : String) : String :=
  "http://download.geonames.org/export/dump/" ++ s

/-- api.downloadGeoNameCountryFiles (src/lib/index.js lines 603-705) as a
trace generator: the non-array case is excluded by the argument type; an empty
list succeeds with count 0 (lines 628-634); a country whose upper-cased code
is not two characters aborts before any network activity (lines 636-648);
otherwise the wave loop runs over the derived `.zip` URLs. -/
def downloadGeoNameCountryFiles (countries : List String)
    (parallelDownloads : Option Nat) (dl : String → Option String) : List DlEv :=
  if countries.isEmpty then [DlEv.cbOk 0]
  else if countries.any (fun c => (strUpper c).length ≠ 2) then
    [DlEv.cbErr "Not all countries in array was correct (two character string)"]
  else
    waveRunF (effParallel parallelDownloads) dl countries.length 0
      (countries.map (fun c => geonameUrl (strUpper c ++ ".zip")))

/-- Consecutive chunks of size `p` (the last chunk holding the remainder),
with a fuel argument making the recursion structural; `chunksOf` instantiates
the fuel so that it never runs out for `p ≥ 1`.  This is the wave partition
the downloader is proved to follow. -/
def chunksAux (p : Nat) : Nat → List String → List (List String)
  | _, [] => []
  | 0, l => [l]
  | fuel + 1, x :: xs => (x :: xs).take p :: chunksAux p fuel ((x :: xs).drop p)

/-- The wave partition of a URL list for parallelism `p`. -/
def chunksOf (p : Nat) (l : List String) : List (List String) :=
  chunksAux p l.length l

/-- The full event trace of a sequence of successful waves followed by the
completion callback carrying the accumulated count. -/
def wavesTrace (filesProcessed : Nat) : List (List String) → List DlEv
  | [] => [DlEv.cbOk filesProcessed]
  | w :: ws =>
    DlEv.preHook (joinSplit w) :: DlEv.doDownload w :: DlEv.postHook (joinSplit w)
      :: wavesTrace (filesProcessed + w.length) ws

/-- The last event of a downloader trace. -/
def finalDlEv : List DlEv → Option DlEv
  | [] => none
  | [e] => some e
  | _ :: e :: t => finalDlEv (e :: t)

/-- Whether a downloader run ended in the error callback. -/
def isDlCbErr : Option DlEv → Bool
  | some (DlEv.cbErr _) => true
  | _ => false

/-!  ## Concrete fixtures used by witnesses and counterexamples -/

/-- A record whose feature class (slot 6) is `P`. -/
def recP : List String := ["1", "n", "a", "alt", "10", "20", "P"]

/-- A record whose feature class (slot 6) is `X`. -/
def recX : List String := ["2", "n", "a", "alt", "10", "20", "X"]

/-- A 109-record file of which exactly 45 records carry feature class `P`,
matching the shape of the NU test fixture described by the spec. -/
def fixture109 : List (List String) := List.replicate 45 recP ++ List.replicate 64 recX

/-- Twelve syntactically valid country codes. -/
def demoCountries12 : List String :=
  ["AD", "AE", "AF", "AG", "AI", "AL", "AM", "AO", "AQ", "AR", "AS", "AT"]

/-- The twelve URLs the downloader derives from `demoCountries12`. -/
def demoUrls12 : List String :=
  demoCountries12.map (fun c => geonameUrl (strUpper c ++ ".zip"))

/-- Concatenation of a wave partition back into one URL list. -/
def concatWaves : List (List String) → List String
  | [] => []
  | w :: ws => w ++ concatWaves ws

/-- Total number of URLs across a wave partition. -/
def wavesLen : List (List String) → Nat
  | [] => 0
  | w :: ws => w.length + wavesLen ws

/-!  ## Helper lemmas: buffer shape -/

theorem flatPairs_append (idx typ : String) (a b : List (List String)) :
    flatPairs idx typ (a ++ b) = flatPairs idx typ a ++ flatPairs idx typ b := by
  induction a with
  | nil => rfl
  | cons r rs ih => simp [flatPairs, ih]

theorem flatPairs_singleton (idx typ : String) (r : List String) :
    flatPairs idx typ [r] = pairFor idx typ r := rfl

theorem flatPairs_length (idx typ : String) (rs : List (List String)) :
    (flatPairs idx typ rs).length = 2 * rs.length := by
  induction rs with
  | nil => rfl
  | cons r t ih => simp [flatPairs, ih]; omega

theorem flatPairs_eq_nil_iff (idx typ : String) (rs : List (List String)) :
    flatPairs idx typ rs = [] ↔ rs = [] := by
  cases rs with
  | nil => simp [flatPairs]
  | cons r t => simp [flatPairs]

theorem flatPairs_get (idx typ : String) (rs : List (List String)) :
    ∀ j, 2 * j + 1 < (flatPairs idx typ rs).length →
      ∃ r, (flatPairs idx typ rs)[2 * j]? = some (directiveFor idx typ r)
        ∧ (flatPairs idx typ rs)[2 * j + 1]? = some (Entry.doc (mapRecord r)) := by
  induction rs with
  | nil => intro j h; simp [flatPairs] at h
  | cons r t ih =>
    intro j h
    cases j with
    | zero => exact ⟨r, by simp [flatPairs], by simp [flatPairs]⟩
    | succ j2 =>
      have h2 : 2 * j2 + 1 < (flatPairs idx typ t).length := by
        simp [flatPairs] at h; omega
      obtain ⟨r2, hd, hb⟩ := ih j2 h2
      refine ⟨r2, ?_, ?_⟩
      · have : 2 * (j2 + 1) = 2 * j2 + 1 + 1 := by omega
        simp [flatPairs, this, hd]
      · have : 2 * (j2 + 1) + 1 = 2 * j2 + 1 + 1 + 1 := by omega
        simp [flatPairs, this, hb]

theorem flatPairs_entryType (idx typ : String) (rs : List (List String)) :
    ∀ e ∈ flatPairs idx typ rs, entryType e = some typ ∨ entryType e = none := by
  induction rs with
  | nil => intro e he; simp [flatPairs] at he
  | cons r t ih =>
    intro e he
    simp only [flatPairs, List.mem_cons] at he
    rcases he with h | h | h
    · exact Or.inl (by simp [h, directiveFor, entryType])
    · exact Or.inr (by simp [h, entryType])
    · exact ih e h

/-!  ## Helper lemmas: the class filter -/

theorem keepsRecord_of_inactive {f : Option (List String)} (h : filterInactive f)
    (r : List String) : keepsRecord f r = true := by
  rcases h with h | h <;> simp [h, keepsRecord]

theorem filter_keep_inactive {f : Option (List String)} (h : filterInactive f)
    (l : List (List String)) : l.filter (fun r => keepsRecord f r) = l := by
  induction l with
  | nil => rfl
  | cons r t ih => simp [List.filter_cons, keepsRecord_of_inactive h, ih]

theorem keptCount_inactive {f : Option (List String)} (h : filterInactive f)
    (l : List (List String)) : keptCount f l = l.length := by
  simp [keptCount, filter_keep_inactive h]

/-!  ## Helper lemmas: trace observers over the bulk-failure event -/

theorem bulkFailEv_cases (m : Option String) :
    (∃ m2, bulkFailEv m = Ev.cbStoreErr m2) ∨ (∃ n, bulkFailEv m = Ev.jsThrow n) := by
  cases h : handleBulkResult m with
  | passthrough m2 => exact Or.inl ⟨m2, by simp [bulkFailEv, h]⟩
  | refErr n => exact Or.inr ⟨n, by simp [bulkFailEv, h]⟩

theorem bulkFailEv_ne_cbOk (m : Option String) (p a : Nat) :
    bulkFailEv m ≠ Ev.cbOk p a := by
  rcases bulkFailEv_cases m with ⟨m2, h⟩ | ⟨n, h⟩ <;> simp [h]

theorem hookArgsOf_bulkFail (m : Option String) (t : List Ev) :
    hookArgsOf (bulkFailEv m :: t) = hookArgsOf t := by
  rcases bulkFailEv_cases m with ⟨m2, h⟩ | ⟨n, h⟩ <;> simp [h, hookArgsOf]

theorem bulkProcessedOf_bulkFail (m : Option String) (t : List Ev) :
    bulkProcessedOf (bulkFailEv m :: t) = bulkProcessedOf t := by
  rcases bulkFailEv_cases m with ⟨m2, h⟩ | ⟨n, h⟩ <;> simp [h, bulkProcessedOf]

theorem interBulkCount_bulkFail (m : Option String) (t : List Ev) :
    interBulkCount (bulkFailEv m :: t) = interBulkCount t := by
  rcases bulkFailEv_cases m with ⟨m2, h⟩ | ⟨n, h⟩ <;> simp [h, interBulkCount]

theorem finalBulkCount_bulkFail (m : Option String) (t : List Ev) :
    finalBulkCount (bulkFailEv m :: t) = finalBulkCount t := by
  rcases bulkFailEv_cases m with ⟨m2, h⟩ | ⟨n, h⟩ <;> simp [h, finalBulkCount]

theorem mem_bulkFail {e : Ev} {m : Option String} (h : e = bulkFailEv m) :
    (∃ m2, e = Ev.cbStoreErr m2) ∨ (∃ n, e = Ev.jsThrow n) := by
  subst h; exact bulkFailEv_cases m

/-!  ## Helper lemmas: `finalCb` -/

theorem finalCb_cons_cons (a b : Ev) (t : List Ev) :
    finalCb (a :: b :: t) = finalCb (b :: t) := rfl

theorem finalCb_cons_of_ne_nil {t : List Ev} (a : Ev) (h : t ≠ []) :
    finalCb (a :: t) = finalCb t := by
  cases t with
  | nil => exact absurd rfl h
  | cons b t2 => rfl

theorem runAux_ne_nil (idx typ : String) (b2 : Nat) (filters : Option (List String))
    (store : Nat → Option (Option String)) (l : List (List String))
    (output : List Entry) (p a k : Nat) :
    runAux idx typ b2 filters store l output p a k ≠ [] := by
  cases l with
  | nil =>
    by_cases h : output.isEmpty <;> simp only [runAux, h] <;> simp
    cases store k <;> simp
  | cons r rs =>
    simp only [runAux]
    by_cases hkeep : keepsRecord filters r
    · simp only [hkeep, if_true]
      by_cases hfull : (output ++ pairFor idx typ r).length = b2
      · simp only [hfull, if_true]
        cases store k <;> simp
      · simp only [hfull, if_false]
        exact runAux_ne_nil idx typ b2 filters store rs _ _ _ _
    · simp only [hkeep]
      simp only [Bool.false_eq_true, if_false]
      exact runAux_ne_nil idx typ b2 filters store rs _ _ _ _

theorem keptCount_nil (f : Option (List String)) : keptCount f [] = 0 := rfl

theorem keptCount_cons_keep {f : Option (List String)} {r : List String}
    (h : keepsRecord f r = true) (rs : List (List String)) :
    keptCount f (r :: rs) = keptCount f rs + 1 := by
  simp [keptCount, List.filter_cons, h]

theorem keptCount_cons_skip {f : Option (List String)} {r : List String}
    (h : keepsRecord f r = false) (rs : List (List String)) :
    keptCount f (r :: rs) = keptCount f rs := by
  simp [keptCount, List.filter_cons, h]

/-!  ## Main inductive lemmas about the pipeline trace -/

/-- The `bufferAdded` hook fires exactly once per bulk request, in the bulk
callback, and always receives the `recordsProcessed` value recorded at that
request (src/lib/index.js line 391) — for every store behaviour. -/
theorem runAux_hook_eq_bulk (idx typ : String) (b2 : Nat)
    (filters : Option (List String)) (store : Nat → Option (Option String))
    (l : List (List String)) (output : List Entry) (p a k : Nat) :
    hookArgsOf (runAux idx typ b2 filters store l output p a k)
      = bulkProcessedOf (runAux idx typ b2 filters store l output p a k) := by
  cases l with
  | nil =>
    by_cases h : output.isEmpty
    · simp [runAux, h, hookArgsOf, bulkProcessedOf]
    · cases hst : store k <;>
        simp [runAux, h, hst, hookArgsOf, bulkProcessedOf,
          hookArgsOf_bulkFail, bulkProcessedOf_bulkFail]
  | cons r rs =>
    by_cases hkeep : keepsRecord filters r
    · by_cases hfull : (output ++ pairFor idx typ r).length = b2
      · cases hst : store k with
        | none =>
          simp only [runAux, hkeep, if_true, hfull, hst, hookArgsOf, bulkProcessedOf]
          rw [runAux_hook_eq_bulk]
        | some msg =>
          simp only [runAux, hkeep, if_true, hfull, hst]
          simp [hookArgsOf, bulkProcessedOf, hookArgsOf_bulkFail, bulkProcessedOf_bulkFail]
      · simp only [runAux, hkeep, if_true, hfull, if_false]
        exact runAux_hook_eq_bulk idx typ b2 filters store rs _ _ _ _
    · simp only [runAux, hkeep, Bool.false_eq_true, if_false]
      exact runAux_hook_eq_bulk idx typ b2 filters store rs _ _ _ _

/-- With a store that acknowledges every commit, the run completes with
`cb(null, {processed: initial + #records, added: initial + #kept})`, and the
buffers handed to the store concatenate to exactly the paired entries of the
kept records, in order (after the pending `output` prefix). -/
theorem runAux_ok_final_flatten (idx typ : String) (b2 : Nat)
    (filters : Option (List String)) (store : Nat → Option (Option String))
    (l : List (List String)) (output : List Entry) (p a k : Nat)
    (hst : ∀ k2, store k2 = none) :
    finalCb (runAux idx typ b2 filters store l output p a k)
        = some (Ev.cbOk (p + l.length) (a + keptCount filters l))
      ∧ flattenBulkBufs (runAux idx typ b2 filters store l output p a k)
        = output ++ flatPairs idx typ (l.filter (fun r => keepsRecord filters r)) := by
  cases l with
  | nil =>
    by_cases h : output.isEmpty
    · have hout : output = [] := by simpa using h
      simp [runAux, h, finalCb, flattenBulkBufs, keptCount_nil, hout, flatPairs]
    · simp [runAux, h, hst k, finalCb, flattenBulkBufs, keptCount_nil, flatPairs]
  | cons r rs =>
    by_cases hkeep : keepsRecord filters r
    · by_cases hfull : (output ++ pairFor idx typ r).length = b2
      · have ih := runAux_ok_final_flatten idx typ b2 filters store rs [] (p + 1) (a + 1)
          (k + 1) hst
        simp only [runAux, hkeep, if_true, hfull, hst k]
        constructor
        · rw [finalCb_cons_cons,
            finalCb_cons_of_ne_nil _ (runAux_ne_nil idx typ b2 filters store rs _ _ _ _),
            ih.1]
          have h1 : p + 1 + rs.length = p + (r :: rs).length := by simp; omega
          have h2 : a + 1 + keptCount filters rs = a + keptCount filters (r :: rs) := by
            rw [keptCount_cons_keep hkeep]; omega
          rw [h1, h2]
        · simp only [flattenBulkBufs, ih.2, List.filter_cons, hkeep, if_true]
          simp [flatPairs, pairFor]
      · have ih := runAux_ok_final_flatten idx typ b2 filters store rs
          (output ++ pairFor idx typ r) (p + 1) (a + 1) k hst
        simp only [runAux, hkeep, if_true, hfull, if_false]
        constructor
        · rw [ih.1]
          have h1 : p + 1 + rs.length = p + (r :: rs).length := by simp; omega
          have h2 : a + 1 + keptCount filters rs = a + keptCount filters (r :: rs) := by
            rw [keptCount_cons_keep hkeep]; omega
          rw [h1, h2]
        · rw [ih.2]
          simp only [List.filter_cons, hkeep, if_true]
          simp [flatPairs, pairFor]
    · have ih := runAux_ok_final_flatten idx typ b2 filters store rs output (p + 1) a k hst
      simp only [runAux, hkeep, Bool.false_eq_true, if_false]
      constructor
      · rw [ih.1]
        have h1 : p + 1 + rs.length = p + (r :: rs).length := by simp; omega
        have h2 : keptCount filters rs = keptCount filters (r :: rs) := by
          rw [keptCount_cons_skip (by simpa using hkeep)]
        rw [h1, h2]
      · rw [ih.2]
        simp only [List.filter_cons]
        simp [hkeep]

/-- Counter invariant of a completed run, for every store behaviour: the
`added` counter never exceeds `processed`, and with no (or an empty) class
filter each processed record is also added. -/
theorem runAux_cbOk_counters (idx typ : String) (b2 : Nat)
    (filters : Option (List String)) (store : Nat → Option (Option String))
    (l : List (List String)) (output : List Entry) (p a k : Nat)
    (p2 a2 : Nat)
    (hmem : Ev.cbOk p2 a2 ∈ runAux idx typ b2 filters store l output p a k) :
    (a ≤ p → a2 ≤ p2) ∧ (filterInactive filters → a2 + p = p2 + a) := by
  cases l with
  | nil =>
    by_cases h : output.isEmpty
    · simp [runAux, h] at hmem
      obtain ⟨hp, ha⟩ := hmem
      subst hp; subst ha
      exact ⟨fun h2 => h2, fun _ => by omega⟩
    · cases hst : store k with
      | none =>
        simp [runAux, h, hst] at hmem
        obtain ⟨hp, ha⟩ := hmem
        subst hp; subst ha
        exact ⟨fun h2 => h2, fun _ => by omega⟩
      | some msg =>
        rcases bulkFailEv_cases msg with ⟨m2, hbf⟩ | ⟨n, hbf⟩ <;>
          simp [runAux, h, hst, hbf] at hmem
  | cons r rs =>
    by_cases hkeep : keepsRecord filters r
    · by_cases hfull : (output ++ pairFor idx typ r).length = b2
      · have hrw : runAux idx typ b2 filters store (r :: rs) output p a k
            = match store k with
              | none =>
                Ev.storeBulk false (output ++ pairFor idx typ r) (p + 1) true []
                  :: Ev.hook (p + 1)
                  :: runAux idx typ b2 filters store rs [] (p + 1) (a + 1) (k + 1)
              | some msg =>
                [Ev.storeBulk false (output ++ pairFor idx typ r) (p + 1) false
                    (output ++ pairFor idx typ r),
                  Ev.hook (p + 1), bulkFailEv msg] := by
          simp only [runAux]; rw [if_pos hkeep, if_pos hfull]
        rw [hrw] at hmem
        cases hst : store k with
        | none =>
          rw [hst] at hmem
          simp only [List.mem_cons] at hmem
          rcases hmem with h2 | h2 | h2
          · exact Ev.noConfusion h2
          · exact Ev.noConfusion h2
          · have ih := runAux_cbOk_counters idx typ b2 filters store rs [] (p + 1) (a + 1)
              (k + 1) p2 a2 h2
            exact ⟨fun hc => ih.1 (by omega), fun hf => by have := ih.2 hf; omega⟩
        | some msg =>
          rw [hst] at hmem
          rcases bulkFailEv_cases msg with ⟨m2, hbf⟩ | ⟨n, hbf⟩ <;>
            simp [hbf] at hmem
      · have hrw : runAux idx typ b2 filters store (r :: rs) output p a k
            = runAux idx typ b2 filters store rs (output ++ pairFor idx typ r)
                (p + 1) (a + 1) k := by
          simp only [runAux]; rw [if_pos hkeep, if_neg hfull]
        rw [hrw] at hmem
        have ih := runAux_cbOk_counters idx typ b2 filters store rs
          (output ++ pairFor idx typ r) (p + 1) (a + 1) k p2 a2 hmem
        exact ⟨fun hc => ih.1 (by omega), fun hf => by have := ih.2 hf; omega⟩
    · have hr : keepsRecord filters r = false := by simpa using hkeep
      have hrw : runAux idx typ b2 filters store (r :: rs) output p a k
          = runAux idx typ b2 filters store rs output (p + 1) a k := by
        simp only [runAux]; rw [if_neg (by simp [hr])]
      rw [hrw] at hmem
      have ih := runAux_cbOk_counters idx typ b2 filters store rs output (p + 1) a k p2 a2
        hmem
      refine ⟨fun hc => ih.1 (by omega), fun hf => ?_⟩
      exact absurd (keepsRecord_of_inactive hf r) (by simp [hr])

/-- Buffer-shape invariant, for every store behaviour: every buffer handed to
the store consists of consecutive (directive, document) pairs each derived
from one record, and the buffer observed right after the bulk callback is
empty exactly when the store acknowledged the commit. -/
theorem runAux_bulk_shape (idx typ : String) (b2 : Nat)
    (filters : Option (List String)) (store : Nat → Option (Option String))
    (l : List (List String)) (rs : List (List String)) (p a k : Nat)
    (fin : Bool) (buf : List Entry) (pr : Nat) (ok : Bool) (after : List Entry)
    (hmem : Ev.storeBulk fin buf pr ok after
      ∈ runAux idx typ b2 filters store l (flatPairs idx typ rs) p a k) :
    (∃ rs2, rs2 ≠ [] ∧ buf = flatPairs idx typ rs2) ∧ (after = [] ↔ ok = true) := by
  cases l with
  | nil =>
    by_cases h : (flatPairs idx typ rs).isEmpty
    · simp [runAux, h] at hmem
    · have hrs : rs ≠ [] := by
        intro hc; subst hc; simp [flatPairs] at h
      have hne : flatPairs idx typ rs ≠ [] := by
        simpa [flatPairs_eq_nil_iff] using hrs
      have hrw : runAux idx typ b2 filters store [] (flatPairs idx typ rs) p a k
          = match store k with
            | none =>
              [Ev.storeBulk true (flatPairs idx typ rs) p true [], Ev.hook p, Ev.cbOk p a]
            | some msg =>
              [Ev.storeBulk true (flatPairs idx typ rs) p false (flatPairs idx typ rs),
                Ev.hook p, bulkFailEv msg] := by
        simp only [runAux]; rw [if_neg (by simp [h])]
      rw [hrw] at hmem
      cases hst : store k with
      | none =>
        rw [hst] at hmem
        simp only [List.mem_cons, List.not_mem_nil, or_false] at hmem
        rcases hmem with h2 | h2 | h2
        · obtain ⟨hf, hb, hp, ho, ha⟩ := Ev.storeBulk.inj h2
          subst hb; subst ho; subst ha
          exact ⟨⟨rs, hrs, rfl⟩, by simp⟩
        · exact Ev.noConfusion h2
        · exact Ev.noConfusion h2
      | some msg =>
        rw [hst] at hmem
        simp only [List.mem_cons, List.not_mem_nil, or_false] at hmem
        rcases hmem with h2 | h2 | h2
        · obtain ⟨hf, hb, hp, ho, ha⟩ := Ev.storeBulk.inj h2
          subst hb; subst ho; subst ha
          exact ⟨⟨rs, hrs, rfl⟩, by simp [hne]⟩
        · exact Ev.noConfusion h2
        · rcases bulkFailEv_cases msg with ⟨m2, hbf⟩ | ⟨n, hbf⟩ <;> rw [hbf] at h2 <;>
            exact Ev.noConfusion h2
  | cons r rs2 =>
    have hpair : flatPairs idx typ rs ++ pairFor idx typ r
        = flatPairs idx typ (rs ++ [r]) := by
      rw [flatPairs_append, flatPairs_singleton]
    by_cases hkeep : keepsRecord filters r
    · by_cases hfull : (flatPairs idx typ rs ++ pairFor idx typ r).length = b2
      · have hrw : runAux idx typ b2 filters store (r :: rs2) (flatPairs idx typ rs) p a k
            = match store k with
              | none =>
                Ev.storeBulk false (flatPairs idx typ rs ++ pairFor idx typ r) (p + 1)
                    true []
                  :: Ev.hook (p + 1)
                  :: runAux idx typ b2 filters store rs2 [] (p + 1) (a + 1) (k + 1)
              | some msg =>
                [Ev.storeBulk false (flatPairs idx typ rs ++ pairFor idx typ r) (p + 1)
                    false (flatPairs idx typ rs ++ pairFor idx typ r),
                  Ev.hook (p + 1), bulkFailEv msg] := by
          simp only [runAux]; rw [if_pos hkeep, if_pos hfull]
        rw [hrw] at hmem
        cases hst : store k with
        | none =>
          rw [hst] at hmem
          simp only [List.mem_cons] at hmem
          rcases hmem with h2 | h2 | h2
          · obtain ⟨hf, hb, hp, ho, ha⟩ := Ev.storeBulk.inj h2
            subst hb; subst ho; subst ha
            exact ⟨⟨rs ++ [r], by simp, hpair⟩, by simp⟩
          · exact Ev.noConfusion h2
          · exact runAux_bulk_shape idx typ b2 filters store rs2 [] (p + 1) (a + 1)
              (k + 1) fin buf pr ok after h2
        | some msg =>
          rw [hst] at hmem
          simp only [List.mem_cons, List.not_mem_nil, or_false] at hmem
          rcases hmem with h2 | h2 | h2
          · obtain ⟨hf, hb, hp, ho, ha⟩ := Ev.storeBulk.inj h2
            subst hb; subst ho; subst ha
            refine ⟨⟨rs ++ [r], by simp, hpair⟩, ?_⟩
            have hne2 : flatPairs idx typ rs ++ pairFor idx typ r ≠ [] := by
              rw [hpair]
              simp [flatPairs_eq_nil_iff]
            simp [hne2]
          · exact Ev.noConfusion h2
          · rcases bulkFailEv_cases msg with ⟨m2, hbf⟩ | ⟨n, hbf⟩ <;> rw [hbf] at h2 <;>
              exact Ev.noConfusion h2
      · have hrw : runAux idx typ b2 filters store (r :: rs2) (flatPairs idx typ rs) p a k
            = runAux idx typ b2 filters store rs2 (flatPairs idx typ (rs ++ [r]))
                (p + 1) (a + 1) k := by
          simp only [runAux]; rw [if_pos hkeep, if_neg hfull, hpair]
        rw [hrw] at hmem
        exact runAux_bulk_shape idx typ b2 filters store rs2 (rs ++ [r]) (p + 1) (a + 1)
          k fin buf pr ok after hmem
    · have hr : keepsRecord filters r = false := by simpa using hkeep
      have hrw : runAux idx typ b2 filters store (r :: rs2) (flatPairs idx typ rs) p a k
          = runAux idx typ b2 filters store rs2 (flatPairs idx typ rs) (p + 1) a k := by
        simp only [runAux]; rw [if_neg (by simp [hr])]
      rw [hrw] at hmem
      exact runAux_bulk_shape idx typ b2 filters store rs2 rs (p + 1) a k fin buf pr ok
        after hmem

/-- Per-trace accounting: the hook fires once per bulk request. -/
theorem bulkProcessedOf_length (tr : List Ev) :
    (bulkProcessedOf tr).length = interBulkCount tr + finalBulkCount tr := by
  induction tr with
  | nil => rfl
  | cons e t ih =>
    cases e with
    | storeBulk fin buf pr ok after =>
      cases fin <;> simp [bulkProcessedOf, interBulkCount, finalBulkCount, ih] <;> omega
    | fsOpen s => simp [bulkProcessedOf, interBulkCount, finalBulkCount, ih]
    | hook n => simp [bulkProcessedOf, interBulkCount, finalBulkCount, ih]
    | cbOk a b => simp [bulkProcessedOf, interBulkCount, finalBulkCount, ih]
    | cbErr s => simp [bulkProcessedOf, interBulkCount, finalBulkCount, ih]
    | cbStoreErr s => simp [bulkProcessedOf, interBulkCount, finalBulkCount, ih]
    | jsThrow s => simp [bulkProcessedOf, interBulkCount, finalBulkCount, ih]

/-- Flush accounting with an always-acknowledging store: starting from a
buffer of `rs.length < b` pending records, with threshold `bufferRecords = b`
(doubled to `2*b` slots), the run issues `(rs.length + kept) / b`
threshold-triggered commits and one stream-end commit exactly when
`(rs.length + kept) % b` records remain pending at stream end. -/
theorem runAux_ok_counts (idx typ : String) (b : Nat)
    (filters : Option (List String)) (store : Nat → Option (Option String))
    (l : List (List String)) (rs : List (List String)) (p a k : Nat)
    (hst : ∀ k2, store k2 = none) (hm : rs.length < b) :
    interBulkCount (runAux idx typ (2 * b) filters store l (flatPairs idx typ rs) p a k)
        = (rs.length + keptCount filters l) / b
      ∧ finalBulkCount (runAux idx typ (2 * b) filters store l (flatPairs idx typ rs) p a k)
        = if (rs.length + keptCount filters l) % b = 0 then 0 else 1 := by
  cases l with
  | nil =>
    cases rs with
    | nil =>
      simp [runAux, flatPairs, interBulkCount, finalBulkCount, keptCount_nil]
    | cons r0 t0 =>
      have hne : ¬ (flatPairs idx typ (r0 :: t0)).isEmpty := by simp [flatPairs]
      have hm2 : t0.length + 1 < b := by simpa using hm
      simp [runAux, hne, hst k, interBulkCount, finalBulkCount, keptCount_nil,
        Nat.div_eq_of_lt hm2, Nat.mod_eq_of_lt hm2]
  | cons r l2 =>
    have hb : 0 < b := Nat.lt_of_le_of_lt (Nat.zero_le _) hm
    have hlen : (flatPairs idx typ rs ++ pairFor idx typ r).length
        = 2 * rs.length + 2 := by
      simp [flatPairs_length, pairFor]
    by_cases hkeep : keepsRecord filters r
    · by_cases hmb : rs.length + 1 = b
      · have hfull : (flatPairs idx typ rs ++ pairFor idx typ r).length = 2 * b := by
          omega
        have hrw : runAux idx typ (2 * b) filters store (r :: l2) (flatPairs idx typ rs)
              p a k
            = Ev.storeBulk false (flatPairs idx typ rs ++ pairFor idx typ r) (p + 1)
                true []
              :: Ev.hook (p + 1)
              :: runAux idx typ (2 * b) filters store l2 [] (p + 1) (a + 1) (k + 1) := by
          simp only [runAux]; rw [if_pos hkeep, if_pos hfull, hst k]
        have ih := runAux_ok_counts idx typ b filters store l2 [] (p + 1) (a + 1) (k + 1)
          hst (by simpa using hb)
        simp only [flatPairs] at ih
        rw [hrw]
        have harith : rs.length + keptCount filters (r :: l2)
            = keptCount filters l2 + b := by
          rw [keptCount_cons_keep hkeep]; omega
        constructor
        · simp only [interBulkCount, Ev.storeBulk.injEq]
          rw [ih.1, harith, Nat.add_div_right _ hb]
          simp
        · simp only [finalBulkCount]
          rw [ih.2, harith, Nat.add_mod_right]
          simp
      · have hfull : ¬ (flatPairs idx typ rs ++ pairFor idx typ r).length = 2 * b := by
          omega
        have hrw : runAux idx typ (2 * b) filters store (r :: l2) (flatPairs idx typ rs)
              p a k
            = runAux idx typ (2 * b) filters store l2 (flatPairs idx typ (rs ++ [r]))
                (p + 1) (a + 1) k := by
          simp only [runAux]
          rw [if_pos hkeep, if_neg hfull, flatPairs_append, flatPairs_singleton]
        have ih := runAux_ok_counts idx typ b filters store l2 (rs ++ [r]) (p + 1) (a + 1)
          k hst (by simp; omega)
        rw [hrw]
        have harith : (rs ++ [r]).length + keptCount filters l2
            = rs.length + keptCount filters (r :: l2) := by
          rw [keptCount_cons_keep hkeep]; simp; omega
        rw [ih.1, ih.2, harith]
        exact ⟨rfl, rfl⟩
    · have hr : keepsRecord filters r = false := by simpa using hkeep
      have hrw : runAux idx typ (2 * b) filters store (r :: l2) (flatPairs idx typ rs)
            p a k
          = runAux idx typ (2 * b) filters store l2 (flatPairs idx typ rs) (p + 1) a k := by
        simp only [runAux]; rw [if_neg (by simp [hr])]
      have ih := runAux_ok_counts idx typ b filters store l2 rs (p + 1) a k hst hm
      rw [hrw, ih.1, ih.2, keptCount_cons_skip hr]
      exact ⟨rfl, rfl⟩

/-- Segment characterization with an inactive filter and an acknowledging
store: processing exactly the `b - rs.length` records that fill the buffer
produces one threshold commit (with its hook call) and continues with an
empty buffer. -/
theorem runAux_segment (idx typ : String) (b : Nat)
    (filters : Option (List String)) (store : Nat → Option (Option String))
    (l1 rest : List (List String)) (rs : List (List String)) (p a k : Nat)
    (hst : ∀ k2, store k2 = none) (hin : filterInactive filters)
    (hfill : rs.length + l1.length = b) (hne : l1 ≠ []) :
    runAux idx typ (2 * b) filters store (l1 ++ rest) (flatPairs idx typ rs) p a k
      = Ev.storeBulk false (flatPairs idx typ (rs ++ l1)) (p + l1.length) true []
        :: Ev.hook (p + l1.length)
        :: runAux idx typ (2 * b) filters store rest [] (p + l1.length) (a + l1.length)
            (k + 1) := by
  cases l1 with
  | nil => exact absurd rfl hne
  | cons r l1t =>
    have hkeep := keepsRecord_of_inactive hin r
    have hlen : (flatPairs idx typ rs ++ pairFor idx typ r).length
        = 2 * rs.length + 2 := by
      simp [flatPairs_length, pairFor]
    cases l1t with
    | nil =>
      have hmb : rs.length + 1 = b := by simpa using hfill
      have hfull : (flatPairs idx typ rs ++ pairFor idx typ r).length = 2 * b := by omega
      have hrw : runAux idx typ (2 * b) filters store (r :: rest) (flatPairs idx typ rs)
            p a k
          = Ev.storeBulk false (flatPairs idx typ rs ++ pairFor idx typ r) (p + 1)
              true []
            :: Ev.hook (p + 1)
            :: runAux idx typ (2 * b) filters store rest [] (p + 1) (a + 1) (k + 1) := by
        simp only [runAux]; rw [if_pos hkeep, if_pos hfull, hst k]
      simpa [flatPairs_append, flatPairs_singleton] using hrw
    | cons r2 l1tt =>
      have hmb : ¬ rs.length + 1 = b := by simp at hfill; omega
      have hfull : ¬ (flatPairs idx typ rs ++ pairFor idx typ r).length = 2 * b := by
        omega
      have ih := runAux_segment idx typ b filters store (r2 :: l1tt) rest (rs ++ [r])
        (p + 1) (a + 1) k hst hin (by simp at hfill ⊢; omega) (by simp)
      have h1 : (rs ++ [r]) ++ (r2 :: l1tt) = rs ++ (r :: r2 :: l1tt) := by simp
      have h2 : p + 1 + (r2 :: l1tt).length = p + (r :: r2 :: l1tt).length := by
        simp only [List.length_cons]; omega
      have h3 : a + 1 + (r2 :: l1tt).length = a + (r :: r2 :: l1tt).length := by
        simp only [List.length_cons]; omega
      rw [h1, h2, h3] at ih
      simp only [List.cons_append] at ih ⊢
      rw [← ih]
      simp only [runAux]
      rw [if_pos hkeep, if_neg hfull, flatPairs_append, flatPairs_singleton]

/-!  ## Helper lemmas: the batch downloader -/

theorem takeWaveGo_spec (n : Nat) (left q : List String) :
    takeWaveGo n left q = (q ++ left.take n, left.drop n) := by
  induction n generalizing left q with
  | zero => simp [takeWaveGo]
  | succ n ih =>
    cases left with
    | nil => simp [takeWaveGo]
    | cons u rest =>
      by_cases h : rest.isEmpty
      · have : rest = [] := by simpa using h
        subst this
        simp [takeWaveGo]
      · simp [takeWaveGo, h, ih]

theorem takeWave_spec (p : Nat) (left : List String) :
    takeWave p left = (left.take p, left.drop p) := by
  simp [takeWave, takeWaveGo_spec]

theorem firstError_eq_none {dl : String → Option String} :
    ∀ {q : List String}, firstError dl q = none ↔ ∀ u ∈ q, dl u = none := by
  intro q
  induction q with
  | nil => simp [firstError]
  | cons u us ih =>
    cases h : dl u <;> simp [firstError, h, ih]

theorem effParallel_pos (o : Option Nat) : 1 ≤ effParallel o := by
  cases o with
  | none => simp [effParallel]
  | some n => cases n <;> simp [effParallel]

theorem chunksAux_congr (p : Nat) (hp : 1 ≤ p) :
    ∀ fuel1 fuel2 (l : List String), l.length ≤ fuel1 → l.length ≤ fuel2 →
      chunksAux p fuel1 l = chunksAux p fuel2 l := by
  intro fuel1
  induction fuel1 with
  | zero =>
    intro fuel2 l h1 h2
    cases l with
    | nil => cases fuel2 <;> simp [chunksAux]
    | cons x xs => simp at h1
  | succ f ih =>
    intro fuel2 l h1 h2
    cases l with
    | nil => cases fuel2 <;> simp [chunksAux]
    | cons x xs =>
      cases fuel2 with
      | zero => simp at h2
      | succ f2 =>
        simp only [chunksAux]
        congr 1
        apply ih
        · simp at h1 ⊢; omega
        · simp at h2 ⊢; omega

theorem chunksOf_nil (p : Nat) : chunksOf p [] = [] := rfl

theorem chunksOf_cons (p : Nat) (hp : 1 ≤ p) (x : String) (xs : List String) :
    chunksOf p (x :: xs)
      = (x :: xs).take p :: chunksOf p ((x :: xs).drop p) := by
  simp only [chunksOf, List.length_cons, chunksAux]
  congr 1
  apply chunksAux_congr p hp
  · simp; omega
  · simp

theorem concatWaves_chunksOf (p : Nat) (hp : 1 ≤ p) :
    ∀ fuel (l : List String), l.length ≤ fuel → concatWaves (chunksOf p l) = l := by
  intro fuel
  induction fuel with
  | zero =>
    intro l h
    cases l with
    | nil => simp [chunksOf_nil, concatWaves]
    | cons x xs => simp at h
  | succ f ih =>
    intro l h
    cases l with
    | nil => simp [chunksOf_nil, concatWaves]
    | cons x xs =>
      rw [chunksOf_cons p hp]
      simp only [concatWaves]
      rw [ih ((x :: xs).drop p) (by simp only [List.length_drop, List.length_cons] at h ⊢; omega)]
      exact List.take_append_drop p (x :: xs)

theorem chunksOf_mem (p : Nat) (hp : 1 ≤ p) :
    ∀ fuel (l : List String) w, l.length ≤ fuel → w ∈ chunksOf p l →
      w ≠ [] ∧ w.length ≤ p := by
  intro fuel
  induction fuel with
  | zero =>
    intro l w h hw
    cases l with
    | nil => simp [chunksOf_nil] at hw
    | cons x xs => simp at h
  | succ f ih =>
    intro l w h hw
    cases l with
    | nil => simp [chunksOf_nil] at hw
    | cons x xs =>
      rw [chunksOf_cons p hp] at hw
      rcases List.mem_cons.mp hw with hw | hw
      · subst hw
        refine ⟨?_, by simp only [List.length_take]; omega⟩
        have : p ≠ 0 := by omega
        simp [List.take_eq_nil_iff, this]
      · exact ih ((x :: xs).drop p) w (by simp only [List.length_drop, List.length_cons] at h ⊢; omega) hw

theorem chunksOf_dropLast (p : Nat) (hp : 1 ≤ p) :
    ∀ fuel (l : List String) w, l.length ≤ fuel → w ∈ (chunksOf p l).dropLast →
      w.length = p := by
  intro fuel
  induction fuel with
  | zero =>
    intro l w h hw
    cases l with
    | nil => simp [chunksOf_nil] at hw
    | cons x xs => simp at h
  | succ f ih =>
    intro l w h hw
    cases l with
    | nil => simp [chunksOf_nil] at hw
    | cons x xs =>
      rw [chunksOf_cons p hp] at hw
      cases hrec : chunksOf p ((x :: xs).drop p) with
      | nil => rw [hrec] at hw; simp at hw
      | cons c cs =>
        rw [hrec] at hw
        rw [List.dropLast_cons_of_ne_nil (by simp)] at hw
        rcases List.mem_cons.mp hw with hw | hw
        · subst hw
          have hdrop : (x :: xs).drop p ≠ [] := by
            intro hc
            rw [hc, chunksOf_nil] at hrec
            exact List.noConfusion hrec
          have hlen : p < (x :: xs).length := by
            by_contra hc
            exact hdrop (List.drop_eq_nil_of_le (by omega))
          simp only [List.length_take, List.length_cons]
          simp only [List.length_cons] at hlen
          omega
        · have := ih ((x :: xs).drop p) w (by simp only [List.length_drop, List.length_cons] at h ⊢; omega)
          rw [hrec] at this
          exact this hw

theorem wavesLen_eq (ws : List (List String)) :
    wavesLen ws = (concatWaves ws).length := by
  induction ws with
  | nil => rfl
  | cons w t ih => simp [wavesLen, concatWaves, ih]

theorem finalDlEv_cons_cons (a b : DlEv) (t : List DlEv) :
    finalDlEv (a :: b :: t) = finalDlEv (b :: t) := rfl

theorem finalDlEv_cons_of_ne_nil {t : List DlEv} (a : DlEv) (h : t ≠ []) :
    finalDlEv (a :: t) = finalDlEv t := by
  cases t with
  | nil => exact absurd rfl h
  | cons b t2 => rfl

theorem finalDlEv_wavesTrace (fp : Nat) (ws : List (List String)) :
    finalDlEv (wavesTrace fp ws) = some (DlEv.cbOk (fp + wavesLen ws)) := by
  induction ws generalizing fp with
  | nil => simp [wavesTrace, finalDlEv, wavesLen]
  | cons w t ih =>
    simp only [wavesTrace, finalDlEv_cons_cons]
    have hne : wavesTrace (fp + w.length) t ≠ [] := by
      cases t <;> simp [wavesTrace]
    rw [finalDlEv_cons_of_ne_nil _ hne, ih]
    have : fp + w.length + wavesLen t = fp + wavesLen (w :: t) := by
      simp [wavesLen]; omega
    rw [this]

/-- Success characterization of the wave loop: with enough fuel, parallelism
at least 1 and every download succeeding, the trace is exactly the sequence of
waves given by the `take p`/`drop p` partition, executed strictly in order,
ending in the success callback. -/
theorem waveRunF_ok (p : Nat) (dl : String → Option String) (hp : 1 ≤ p) :
    ∀ fuel (left : List String) fp, left.length ≤ fuel →
      (∀ u ∈ left, dl u = none) →
      waveRunF p dl fuel fp left = wavesTrace fp (chunksOf p left) := by
  intro fuel
  induction fuel with
  | zero =>
    intro left fp h hok
    cases left with
    | nil => simp [waveRunF, takeWave_spec, chunksOf_nil, wavesTrace]
    | cons x xs => simp at h
  | succ f ih =>
    intro left fp h hok
    cases left with
    | nil => simp [waveRunF, takeWave_spec, chunksOf_nil, wavesTrace]
    | cons x xs =>
      have hqne : ¬ ((x :: xs).take p).isEmpty := by
        have : p ≠ 0 := by omega
        simp [List.take_eq_nil_iff, this]
      have hferr : firstError dl ((x :: xs).take p) = none := by
        rw [firstError_eq_none]
        intro u hu
        exact hok u (List.take_subset p (x :: xs) hu)
      rw [chunksOf_cons p hp]
      simp only [waveRunF, takeWave_spec, hqne, Bool.false_eq_true, if_false, hferr,
        wavesTrace]
      by_cases hrest : ((x :: xs).drop p).isEmpty
      · have hdrop : (x :: xs).drop p = [] := by simpa using hrest
        simp [hrest, hdrop, chunksOf_nil, wavesTrace]
      · have hdrop : (x :: xs).drop p ≠ [] := by simpa using hrest
        have hlen : p < (x :: xs).length := by
          by_contra hc
          exact hdrop (List.drop_eq_nil_of_le (by omega))
        simp only [hrest, Bool.false_eq_true, if_false]
        rw [ih ((x :: xs).drop p) (fp + ((x :: xs).take p).length)
          (by simp only [List.length_drop, List.length_cons] at h ⊢; omega)
          (fun u hu => hok u (List.drop_subset p (x :: xs) hu))]

/-- The wave loop never returns the empty trace when the fuel covers the URL
list. -/
theorem waveRunF_ne_nil (p : Nat) (dl : String → Option String) (hp : 1 ≤ p) :
    ∀ fuel (left : List String) fp, left.length ≤ fuel →
      waveRunF p dl fuel fp left ≠ [] := by
  intro fuel
  induction fuel with
  | zero =>
    intro left fp h
    cases left with
    | nil => simp [waveRunF, takeWave_spec]
    | cons x xs => simp at h
  | succ f ih =>
    intro left fp h
    cases left with
    | nil => simp [waveRunF, takeWave_spec]
    | cons x xs =>
      have hqne : ¬ ((x :: xs).take p).isEmpty := by
        have : p ≠ 0 := by omega
        simp [List.take_eq_nil_iff, this]
      simp only [waveRunF, takeWave_spec, hqne, Bool.false_eq_true, if_false]
      cases hferr : firstError dl ((x :: xs).take p) <;> simp

/-- Failure propagation of the wave loop: if any pending URL fails, the loop
ends in the error callback. -/
theorem waveRunF_fail (p : Nat) (dl : String → Option String) (hp : 1 ≤ p) :
    ∀ fuel (left : List String) fp, left.length ≤ fuel → left ≠ [] →
      (∃ u ∈ left, dl u ≠ none) →
      isDlCbErr (finalDlEv (waveRunF p dl fuel fp left)) = true := by
  intro fuel
  induction fuel with
  | zero =>
    intro left fp h hne hex
    cases left with
    | nil => exact absurd rfl hne
    | cons x xs => simp at h
  | succ f ih =>
    intro left fp h hne hex
    cases left with
    | nil => exact absurd rfl hne
    | cons x xs =>
      have hqne : ¬ ((x :: xs).take p).isEmpty := by
        have : p ≠ 0 := by omega
        simp [List.take_eq_nil_iff, this]
      simp only [waveRunF, takeWave_spec, hqne, Bool.false_eq_true, if_false]
      cases hferr : firstError dl ((x :: xs).take p) with
      | some e => simp [finalDlEv, isDlCbErr]
      | none =>
        have hwaveok : ∀ u ∈ (x :: xs).take p, dl u = none :=
          firstError_eq_none.mp hferr
        obtain ⟨u, hu, hbad⟩ := hex
        have hurest : u ∈ (x :: xs).drop p := by
          rcases (List.mem_append.mp (by
            rw [List.take_append_drop p (x :: xs)]; exact hu
            : u ∈ (x :: xs).take p ++ (x :: xs).drop p)) with h2 | h2
          · exact absurd (hwaveok u h2) hbad
          · exact h2
        have hdrop : (x :: xs).drop p ≠ [] := by
          intro hc; rw [hc] at hurest; simp at hurest
        have hrest : ¬ ((x :: xs).drop p).isEmpty := by simpa using hdrop
        have hlen : p < (x :: xs).length := by
          by_contra hc
          exact hdrop (List.drop_eq_nil_of_le (by omega))
        simp only [hrest, Bool.false_eq_true, if_false]
        rw [finalDlEv_cons_cons, finalDlEv_cons_cons]
        rw [finalDlEv_cons_of_ne_nil _
          (waveRunF_ne_nil p dl hp f ((x :: xs).drop p) _ (by simp only [List.length_drop, List.length_cons] at h ⊢; omega))]
        exact ih ((x :: xs).drop p) (fp + ((x :: xs).take p).length)
          (by simp only [List.length_drop, List.length_cons] at h ⊢; omega) hdrop ⟨u, hurest, hbad⟩

/-!  ## Helper lemmas: addFileToElastic dispatch -/

theorem addFileToElastic_invalid {v : JSVal} (hcc : ccInvalid v = true)
    (cfg : LocalCfg) (opts : Options) (fsy : String → Option (List (List String)))
    (store : Nat → Option (Option String)) :
    addFileToElastic cfg v opts fsy store
      = [Ev.cbErr ("Invalid countryCode \x27" ++ jsToString v
          ++ "\x27, should be two char string")] := by
  simp [addFileToElastic, hcc]

theorem addFileToElastic_missing {cfg : LocalCfg} {v : JSVal}
    {fsy : String → Option (List (List String))}
    (hcc : ccInvalid v = false) (hfs : fsy (addPath cfg v) = none)
    (opts : Options) (store : Nat → Option (Option String)) :
    addFileToElastic cfg v opts fsy store
      = [Ev.fsOpen (addPath cfg v),
        Ev.cbErr ("Missing datafile for " ++ addCode v ++ " at " ++ addPath cfg v)] := by
  simp [addFileToElastic, hcc, hfs]

theorem addFileToElastic_run {cfg : LocalCfg} {v : JSVal}
    {fsy : String → Option (List (List String))} {l : List (List String)}
    (hcc : ccInvalid v = false) (hfs : fsy (addPath cfg v) = some l)
    (opts : Options) (store : Nat → Option (Option String)) :
    addFileToElastic cfg v opts fsy store
      = Ev.fsOpen (addPath cfg v)
        :: runAux cfg.elasticIndex cfg.elasticType
            (2 * effectiveBufferRecords opts.bufferRecords) opts.classFilters
            (addStore v store) l [] 0 0 0 := by
  simp [addFileToElastic, hcc, hfs]

/-!  ## Claims -/

/-- C1: for every invocation of addFileToElastic, at every bulk commit the
buffer passed to the store has even length and alternates directive/document
entries — position 2k holds the directive (index, type, geonameId as id) and
position 2k+1 the document body derived from the same source record — and the
buffer is reset to the empty sequence exactly when the commit succeeds. -/
theorem C1_bulk_buffer_pairing
    (cfg : LocalCfg) (v : JSVal) (opts : Options)
    (fsy : String → Option (List (List String)))
    (store : Nat → Option (Option String))
    (fin : Bool) (buf : List Entry) (pr : Nat) (ok : Bool) (after : List Entry)
    (hmem : Ev.storeBulk fin buf pr ok after ∈ addFileToElastic cfg v opts fsy store) :
    buf.length % 2 = 0 ∧ buf ≠ []
    ∧ (∀ j, 2 * j + 1 < buf.length →
        ∃ r, buf[2 * j]? = some (directiveFor cfg.elasticIndex cfg.elasticType r)
          ∧ buf[2 * j + 1]? = some (Entry.doc (mapRecord r)))
    ∧ (after = [] ↔ ok = true) := by
  by_cases hcc : ccInvalid v
  · rw [addFileToElastic_invalid hcc] at hmem
    simp at hmem
  · have hcc2 : ccInvalid v = false := by simpa using hcc
    cases hfs : fsy (addPath cfg v) with
    | none =>
      rw [addFileToElastic_missing hcc2 hfs] at hmem
      simp at hmem
    | some l =>
      rw [addFileToElastic_run hcc2 hfs] at hmem
      simp only [List.mem_cons] at hmem
      rcases hmem with h2 | h2
      · exact Ev.noConfusion h2
      · obtain ⟨⟨rs2, hrs2, hbuf⟩, hiff⟩ :=
          runAux_bulk_shape cfg.elasticIndex cfg.elasticType
            (2 * effectiveBufferRecords opts.bufferRecords) opts.classFilters
            (addStore v store) l [] 0 0 0 fin buf pr ok after h2
        subst hbuf
        refine ⟨?_, ?_, ?_, hiff⟩
        · rw [flatPairs_length]; omega
        · simpa [flatPairs_eq_nil_iff] using hrs2
        · exact flatPairs_get _ _ rs2

/-- Witness for C1 at a concrete run: in test mode with `bufferRecords = 1`
and a one-record file, a threshold commit occurs and satisfies the pairing
and reset properties. -/
theorem C1_bulk_buffer_pairing_witness :
    (Ev.storeBulk false (flatPairs "geonames" "geoname" [["7"]]) 1 true []
        ∈ addFileToElastic defaultLocal (JSVal.str "00") { bufferRecords := some 1 }
          (fun _ => some [["7"]]) (fun _ => none))
    ∧ ((flatPairs "geonames" "geoname" [["7"]]).length % 2 = 0
      ∧ flatPairs "geonames" "geoname" [["7"]] ≠ []
      ∧ (∀ j, 2 * j + 1 < (flatPairs "geonames" "geoname" [["7"]]).length →
          ∃ r, (flatPairs "geonames" "geoname" [["7"]])[2 * j]?
              = some (directiveFor "geonames" "geoname" r)
            ∧ (flatPairs "geonames" "geoname" [["7"]])[2 * j + 1]?
              = some (Entry.doc (mapRecord r)))
      ∧ (([] : List Entry) = [] ↔ true = true)) :=
  ⟨by decide,
    C1_bulk_buffer_pairing defaultLocal (JSVal.str "00") { bufferRecords := some 1 }
      (fun _ => some [["7"]]) (fun _ => none) false
      (flatPairs "geonames" "geoname" [["7"]]) 1 true [] (by decide)⟩

/-- C7: every countryCode that is not a two-character string (missing, wrong
type, or wrong length) makes addFileToElastic fail through the callback with
an InvalidArgument error embedding the offending value, with a trace
containing no file-system, network or store event. -/
theorem C7_invalid_country_code :
    (∀ v, ccInvalid v = true ↔ ∀ s, v = JSVal.str s → s.length ≠ 2)
    ∧ (∀ (cfg : LocalCfg) (opts : Options) (fsy : String → Option (List (List String)))
        (store : Nat → Option (Option String)) (v : JSVal), ccInvalid v = true →
        addFileToElastic cfg v opts fsy store
          = [Ev.cbErr ("Invalid countryCode \x27" ++ jsToString v
              ++ "\x27, should be two char string")]
        ∧ ∃ pre post, ("Invalid countryCode \x27" ++ jsToString v
              ++ "\x27, should be two char string") = (pre ++ jsToString v) ++ post) := by
  constructor
  · intro v
    cases v with
    | str s =>
      simp only [ccInvalid, Bool.or_eq_true, beq_iff_eq, decide_eq_true_eq,
        JSVal.str.injEq, forall_eq']
      constructor
      · rintro (rfl | h)
        · decide
        · exact h
      · exact Or.inr
    | undefined => simp [ccInvalid]
    | null => simp [ccInvalid]
    | bool b => simp [ccInvalid]
    | num n => simp [ccInvalid]
  · intro cfg opts fsy store v hcc
    exact ⟨addFileToElastic_invalid hcc cfg opts fsy store,
      ⟨"Invalid countryCode \x27", "\x27, should be two char string", rfl⟩⟩

/-- Witness for C7 at the concrete malformed code from the repository's own
test suite: a multi-word string is rejected via the callback with no other
event. -/
theorem C7_invalid_country_code_witness :
    ccInvalid (JSVal.str "yes sir") = true
    ∧ addFileToElastic defaultLocal (JSVal.str "yes sir") {} (fun _ => none)
        (fun _ => none)
      = [Ev.cbErr "Invalid countryCode \x27yes sir\x27, should be two char string"] :=
  ⟨by decide,
    (C7_invalid_country_code.2 defaultLocal {} (fun _ => none) (fun _ => none)
      (JSVal.str "yes sir") (by decide)).1⟩

/-- C10: `options.bufferRecords = 0` (a falsy value) silently selects the
default threshold 1000 instead of failing or flushing per record, so it is
observationally indistinguishable from omitting the option. -/
theorem C10_zero_buffer_default :
    effectiveBufferRecords (some 0) = 1000
    ∧ effectiveBufferRecords none = 1000
    ∧ ∀ (cfg : LocalCfg) (v : JSVal) (filters : Option (List String))
        (fsy : String → Option (List (List String)))
        (store : Nat → Option (Option String)),
        addFileToElastic cfg v { bufferRecords := some 0, classFilters := filters }
            fsy store
          = addFileToElastic cfg v { bufferRecords := none, classFilters := filters }
              fsy store := by
  refine ⟨rfl, rfl, ?_⟩
  intro cfg v filters fsy store
  rfl

/-- C3: the store-rejection classifier of helperAddBuffer.  A rejection whose
message marks the index or the type as missing reaches the branch that reads
the undeclared identifiers `elasicIndex` / `elasicType` (src/lib/index.js
lines 410, 413) and therefore throws a ReferenceError out of the bulk
callback — the promised SchemaMissing error never reaches the caller; every
other rejection is passed through to the callback unchanged, and the stalled
stream processes no further record (the trace ends there). -/
theorem C3_schema_missing_crash :
    handleBulkResult (some "index is missing") = BulkFail.refErr "elasicIndex"
    ∧ handleBulkResult (some "type is missing") = BulkFail.refErr "elasicType"
    ∧ handleBulkResult (some "connection refused")
        = BulkFail.passthrough (some "connection refused")
    ∧ handleBulkResult none = BulkFail.passthrough none
    ∧ bulkFailEv (some "index is missing") = Ev.jsThrow "elasicIndex"
    ∧ bulkFailEv (some "connection refused") = Ev.cbStoreErr (some "connection refused")
    ∧ addFileToElastic defaultLocal (JSVal.str "AB") {} (fun _ => some [["42"]])
        (fun _ => some (some "index is missing"))
      = [Ev.fsOpen (addPath defaultLocal (JSVal.str "AB")),
        Ev.storeBulk true (flatPairs "geonames" "geoname" [["42"]]) 1 false
          (flatPairs "geonames" "geoname" [["42"]]),
        Ev.hook 1, Ev.jsThrow "elasicIndex"]
    ∧ addFileToElastic defaultLocal (JSVal.str "AB") {} (fun _ => some [["42"]])
        (fun _ => some (some "connection refused"))
      = [Ev.fsOpen (addPath defaultLocal (JSVal.str "AB")),
        Ev.storeBulk true (flatPairs "geonames" "geoname" [["42"]]) 1 false
          (flatPairs "geonames" "geoname" [["42"]]),
        Ev.hook 1, Ev.cbStoreErr (some "connection refused")] := by
  decide

/-- Counterexample to C2 as stated: `bufferRecords = 1` is a positive integer
and a file of `2*1 + 1 = 3` filter-passing records yields three
threshold-triggered flushes and no stream-end flush (the buffer is empty at
stream end), not two intermediate flushes plus one final flush; the hook still
fires three times. -/
theorem C2_flush_split_cex :
    interBulkCount (addFileToElastic defaultLocal (JSVal.str "AB")
        { bufferRecords := some 1 } (fun _ => some [["1"], ["2"], ["3"]])
        (fun _ => none)) = 3
    ∧ finalBulkCount (addFileToElastic defaultLocal (JSVal.str "AB")
        { bufferRecords := some 1 } (fun _ => some [["1"], ["2"], ["3"]])
        (fun _ => none)) = 0
    ∧ hookArgsOf (addFileToElastic defaultLocal (JSVal.str "AB")
        { bufferRecords := some 1 } (fun _ => some [["1"], ["2"], ["3"]])
        (fun _ => none)) = [1, 2, 3]
    ∧ ¬ (interBulkCount (addFileToElastic defaultLocal (JSVal.str "AB")
          { bufferRecords := some 1 } (fun _ => some [["1"], ["2"], ["3"]])
          (fun _ => none)) = 2
        ∧ finalBulkCount (addFileToElastic defaultLocal (JSVal.str "AB")
            { bufferRecords := some 1 } (fun _ => some [["1"], ["2"], ["3"]])
            (fun _ => none)) = 1) := by
  decide

/-- C5: for every completed invocation, the returned counters satisfy
`processed >= added`, with equality whenever no class filter (or an empty
filter list) was supplied; and with an acknowledging store the completion
callback reports `processed` = number of parsed lines and `added` = number of
filter-passing lines. -/
theorem C5_processed_ge_added :
    (∀ (cfg : LocalCfg) (v : JSVal) (opts : Options)
        (fsy : String → Option (List (List String)))
        (store : Nat → Option (Option String)) (p a : Nat),
        Ev.cbOk p a ∈ addFileToElastic cfg v opts fsy store →
        a ≤ p ∧ (filterInactive opts.classFilters → a = p))
    ∧ (∀ (cfg : LocalCfg) (v : JSVal) (opts : Options)
        (fsy : String → Option (List (List String)))
        (store : Nat → Option (Option String)) (l : List (List String)),
        ccInvalid v = false →
        fsy (addPath cfg v) = some l →
        (∀ k, addStore v store k = none) →
        finalCb (addFileToElastic cfg v opts fsy store)
          = some (Ev.cbOk l.length (keptCount opts.classFilters l))) := by
  constructor
  · intro cfg v opts fsy store p a hmem
    by_cases hcc : ccInvalid v
    · rw [addFileToElastic_invalid hcc] at hmem
      simp at hmem
    · have hcc2 : ccInvalid v = false := by simpa using hcc
      cases hfs : fsy (addPath cfg v) with
      | none =>
        rw [addFileToElastic_missing hcc2 hfs] at hmem
        simp at hmem
      | some l =>
        rw [addFileToElastic_run hcc2 hfs] at hmem
        simp only [List.mem_cons] at hmem
        rcases hmem with h2 | h2
        · exact Ev.noConfusion h2
        · have hc := runAux_cbOk_counters cfg.elasticIndex cfg.elasticType
            (2 * effectiveBufferRecords opts.bufferRecords) opts.classFilters
            (addStore v store) l [] 0 0 0 p a h2
          exact ⟨hc.1 (Nat.le_refl 0), fun hf => by have := hc.2 hf; omega⟩
  · intro cfg v opts fsy store l hcc hfs hstore
    rw [addFileToElastic_run hcc hfs]
    have hrun := runAux_ok_final_flatten cfg.elasticIndex cfg.elasticType
      (2 * effectiveBufferRecords opts.bufferRecords) opts.classFilters
      (addStore v store) l [] 0 0 0 hstore
    rw [finalCb_cons_of_ne_nil _ (runAux_ne_nil _ _ _ _ _ _ _ _ _ _), hrun.1]
    simp

/-- Witness for C5 at a concrete test-mode run on a two-record file with no
filter: both counters are 2. -/
theorem C5_processed_ge_added_witness :
    ccInvalid (JSVal.str "00") = false
    ∧ finalCb (addFileToElastic defaultLocal (JSVal.str "00") {}
        (fun _ => some [recP, recX]) (fun _ => none)) = some (Ev.cbOk 2 2) :=
  ⟨by decide,
    C5_processed_ge_added.2 defaultLocal (JSVal.str "00") {}
      (fun _ => some [recP, recX]) (fun _ => none) [recP, recX] (by decide) rfl
      (fun _ => rfl)⟩

/-- C6: with a present, non-empty classFilters list, a record is kept —
buffered as its (directive, document) pair and counted in `added` — exactly
when its feature-class field equals at least one filter value; on a 109-record
file of which 45 carry feature class P, filtering on P completes with
`processed = 109` and `added = 45`. -/
theorem C6_class_filter :
    (∀ (fs : List String) (r : List String), fs ≠ [] →
        keepsRecord (some fs) r = fs.any (fun f => r[6]? == some f))
    ∧ (∀ (cfg : LocalCfg) (v : JSVal) (opts : Options)
        (fsy : String → Option (List (List String)))
        (store : Nat → Option (Option String)) (l : List (List String))
        (fs : List String),
        ccInvalid v = false →
        fsy (addPath cfg v) = some l →
        (∀ k, addStore v store k = none) →
        opts.classFilters = some fs → fs ≠ [] →
        flattenBulkBufs (addFileToElastic cfg v opts fsy store)
          = flatPairs cfg.elasticIndex cfg.elasticType
              (l.filter (fun r => keepsRecord (some fs) r))
        ∧ finalCb (addFileToElastic cfg v opts fsy store)
          = some (Ev.cbOk l.length
              (l.filter (fun r => keepsRecord (some fs) r)).length))
    ∧ (∀ (cfg : LocalCfg) (v : JSVal)
        (fsy : String → Option (List (List String)))
        (store : Nat → Option (Option String)) (l : List (List String)),
        ccInvalid v = false →
        fsy (addPath cfg v) = some l →
        (∀ k, addStore v store k = none) →
        l.length = 109 →
        (l.filter (fun r => keepsRecord (some ["P"]) r)).length = 45 →
        finalCb (addFileToElastic cfg v { classFilters := some ["P"] } fsy store)
          = some (Ev.cbOk 109 45)) := by
  have main : ∀ (cfg : LocalCfg) (v : JSVal) (opts : Options)
      (fsy : String → Option (List (List String)))
      (store : Nat → Option (Option String)) (l : List (List String)),
      ccInvalid v = false →
      fsy (addPath cfg v) = some l →
      (∀ k, addStore v store k = none) →
      flattenBulkBufs (addFileToElastic cfg v opts fsy store)
        = flatPairs cfg.elasticIndex cfg.elasticType
            (l.filter (fun r => keepsRecord opts.classFilters r))
      ∧ finalCb (addFileToElastic cfg v opts fsy store)
        = some (Ev.cbOk l.length
            (l.filter (fun r => keepsRecord opts.classFilters r)).length) := by
    intro cfg v opts fsy store l hcc hfs hstore
    rw [addFileToElastic_run hcc hfs]
    have hrun := runAux_ok_final_flatten cfg.elasticIndex cfg.elasticType
      (2 * effectiveBufferRecords opts.bufferRecords) opts.classFilters
      (addStore v store) l [] 0 0 0 hstore
    constructor
    · simp only [flattenBulkBufs]
      rw [hrun.2]
      simp
    · rw [finalCb_cons_of_ne_nil _ (runAux_ne_nil _ _ _ _ _ _ _ _ _ _), hrun.1]
      simp [keptCount]
  refine ⟨?_, ?_, ?_⟩
  · intro fs r hne
    have h : fs.isEmpty = false := by simpa using hne
    simp [keepsRecord, h]
  · intro cfg v opts fsy store l fs hcc hfs hstore hopts hne
    have h := main cfg v opts fsy store l hcc hfs hstore
    rw [hopts] at h
    exact h
  · intro cfg v fsy store l hcc hfs hstore h109 h45
    have h : finalCb (addFileToElastic cfg v { classFilters := some ["P"] } fsy store)
        = some (Ev.cbOk l.length
            (l.filter (fun r => keepsRecord (some ["P"]) r)).length) :=
      (main cfg v { classFilters := some ["P"] } fsy store l hcc hfs hstore).2
    rw [h109, h45] at h
    exact h

/-- Witness for C6 on a concrete 109-record fixture with 45 P-class records. -/
theorem C6_class_filter_witness :
    fixture109.length = 109
    ∧ (fixture109.filter (fun r => keepsRecord (some ["P"]) r)).length = 45
    ∧ finalCb (addFileToElastic defaultLocal (JSVal.str "00")
        { classFilters := some ["P"] } (fun _ => some fixture109) (fun _ => none))
      = some (Ev.cbOk 109 45) :=
  ⟨by decide, by decide,
    C6_class_filter.2.2 defaultLocal (JSVal.str "00") (fun _ => some fixture109)
      (fun _ => none) fixture109 (by decide) rfl (fun _ => rfl) (by decide) (by decide)⟩

/-- C2 (amended): for `bufferRecords = N` with `N ≥ 2`, a source file with
exactly `2N + 1` filter-passing records and an acknowledging store yields
exactly 2 threshold-triggered flushes plus exactly 1 stream-end flush; the
`bufferAdded` hook fires exactly 3 times, once per flush, each time with the
cumulative `recordsProcessed` at that flush — when all records pass (no
filter), with the values `N`, `2N`, `2N+1`.  (At `N = 1` the claim as stated
fails: see the counterexample — all three flushes are threshold-triggered and
no stream-end flush occurs.) -/
theorem C2_flush_boundary_amended (cfg : LocalCfg) (N : Nat) (v : JSVal)
    (filters : Option (List String))
    (fsy : String → Option (List (List String)))
    (store : Nat → Option (Option String)) (l : List (List String))
    (hN : 2 ≤ N)
    (hcc : ccInvalid v = false)
    (hfs : fsy (addPath cfg v) = some l)
    (hstore : ∀ k, addStore v store k = none)
    (hkept : keptCount filters l = 2 * N + 1) :
    interBulkCount (addFileToElastic cfg v
        { bufferRecords := some N, classFilters := filters } fsy store) = 2
    ∧ finalBulkCount (addFileToElastic cfg v
        { bufferRecords := some N, classFilters := filters } fsy store) = 1
    ∧ hookArgsOf (addFileToElastic cfg v
          { bufferRecords := some N, classFilters := filters } fsy store)
        = bulkProcessedOf (addFileToElastic cfg v
            { bufferRecords := some N, classFilters := filters } fsy store)
    ∧ (hookArgsOf (addFileToElastic cfg v
          { bufferRecords := some N, classFilters := filters } fsy store)).length = 3
    ∧ (filterInactive filters →
        hookArgsOf (addFileToElastic cfg v
            { bufferRecords := some N, classFilters := filters } fsy store)
          = [N, 2 * N, 2 * N + 1]) := by
  have hb : 0 < N := by omega
  have hN0 : ¬ N = 0 := by omega
  have heff : effectiveBufferRecords (some N) = N := by
    simp [effectiveBufferRecords, hN0]
  rw [addFileToElastic_run hcc hfs]
  have hopts1 : ({ bufferRecords := some N, classFilters := filters } :
      Options).bufferRecords = some N := rfl
  have hopts2 : ({ bufferRecords := some N, classFilters := filters } :
      Options).classFilters = filters := rfl
  rw [hopts1, hopts2, heff]
  have hdiv : (2 * N + 1) / N = 2 :=
    Nat.div_eq_of_lt_le (by omega) (by omega)
  have hmod : (2 * N + 1) % N = 1 := by
    have h := Nat.div_add_mod (2 * N + 1) N
    rw [hdiv] at h
    omega
  have counts := runAux_ok_counts cfg.elasticIndex cfg.elasticType N filters
    (addStore v store) l [] 0 0 0 hstore (by simpa using hb)
  simp only [flatPairs, List.length_nil, Nat.zero_add] at counts
  refine ⟨?_, ?_, ?_, ?_, ?_⟩
  · simp only [interBulkCount]
    rw [counts.1, hkept]
    exact hdiv
  · simp only [finalBulkCount]
    rw [counts.2, hkept, hmod]
    simp
  · simp only [hookArgsOf, bulkProcessedOf]
    exact runAux_hook_eq_bulk _ _ _ _ _ _ _ _ _ _
  · simp only [hookArgsOf]
    rw [runAux_hook_eq_bulk, bulkProcessedOf_length, counts.1, counts.2, hkept, hdiv,
      hmod]
    simp
  · intro hin
    have hlen : l.length = 2 * N + 1 := by
      rw [keptCount_inactive hin] at hkept
      exact hkept
    have hl1 : (l.take N).length = N := by
      simp only [List.length_take]
      omega
    have hl2 : ((l.drop N).take N).length = N := by
      simp only [List.length_take, List.length_drop]
      omega
    have hl3 : ((l.drop N).drop N).length = 1 := by
      simp only [List.length_drop]
      omega
    obtain ⟨r3, hr3⟩ := List.length_eq_one.mp hl3
    have hsplit : l = l.take N ++ ((l.drop N).take N ++ (l.drop N).drop N) := by
      rw [List.take_append_drop, List.take_append_drop]
    have h2N : N + N = 2 * N := by omega
    have e1 := runAux_segment cfg.elasticIndex cfg.elasticType N filters
      (addStore v store) (l.take N) ((l.drop N).take N ++ (l.drop N).drop N) [] 0 0 0
      hstore hin (by simp [hl1]) (by
        intro hc
        rw [hc] at hl1
        simp at hl1
        omega)
    simp only [flatPairs, List.nil_append, Nat.zero_add, hl1] at e1
    have e2 := runAux_segment cfg.elasticIndex cfg.elasticType N filters
      (addStore v store) ((l.drop N).take N) ((l.drop N).drop N) [] N N 1
      hstore hin (by simp [hl2]) (by
        intro hc
        rw [hc] at hl2
        simp at hl2
        omega)
    simp only [flatPairs, List.nil_append, hl2, h2N, hr3] at e2
    have hkeepr := keepsRecord_of_inactive hin r3
    have e3 : runAux cfg.elasticIndex cfg.elasticType (2 * N) filters (addStore v store)
        [r3] [] (2 * N) (2 * N) 2
        = [Ev.storeBulk true ([] ++ pairFor cfg.elasticIndex cfg.elasticType r3)
            (2 * N + 1) true [],
          Ev.hook (2 * N + 1), Ev.cbOk (2 * N + 1) (2 * N + 1)] := by
      simp only [runAux]
      rw [if_pos hkeepr, if_neg (by simp [pairFor]; omega)]
      rw [if_neg (by simp [pairFor])]
      rw [hstore 2]
    rw [hsplit, e1, hr3, e2, e3]
    simp [hookArgsOf]

/-- Witness for the amended C2 at `N = 2` on a five-record unfiltered file:
2 threshold flushes, 1 final flush, hook arguments 2, 4, 5. -/
theorem C2_flush_boundary_amended_witness :
    interBulkCount (addFileToElastic defaultLocal (JSVal.str "AB")
        { bufferRecords := some 2 }
        (fun _ => some [["1"], ["2"], ["3"], ["4"], ["5"]]) (fun _ => none)) = 2
    ∧ finalBulkCount (addFileToElastic defaultLocal (JSVal.str "AB")
        { bufferRecords := some 2 }
        (fun _ => some [["1"], ["2"], ["3"], ["4"], ["5"]]) (fun _ => none)) = 1
    ∧ hookArgsOf (addFileToElastic defaultLocal (JSVal.str "AB")
        { bufferRecords := some 2 }
        (fun _ => some [["1"], ["2"], ["3"], ["4"], ["5"]]) (fun _ => none))
      = [2, 4, 5] :=
  have h := C2_flush_boundary_amended defaultLocal 2 (JSVal.str "AB") none
    (fun _ => some [["1"], ["2"], ["3"], ["4"], ["5"]]) (fun _ => none)
    [["1"], ["2"], ["3"], ["4"], ["5"]] (by omega) (by decide) rfl (fun _ => rfl)
    (by decide)
  ⟨h.1, h.2.1, h.2.2.2.2 (Or.inl rfl)⟩

/-- Counterexample to C4 as stated: a failed catalog download in
getGeoNameCountries is never delivered to the callback — the pipe chain has no
error handler, so the error surfaces as an unhandled stream event instead. -/
theorem C4_catalog_error_cex :
    getGeoNameCountries (Except.error "getaddrinfo ENOTFOUND download.geonames.org")
        true
      = CatalogOutcome.uncaught "getaddrinfo ENOTFOUND download.geonames.org"
    ∧ getGeoNameCountries (Except.error "getaddrinfo ENOTFOUND download.geonames.org")
        true
      ≠ CatalogOutcome.cbErr "getaddrinfo ENOTFOUND download.geonames.org"
    ∧ getGeoNameCountries (Except.error "getaddrinfo ENOTFOUND download.geonames.org")
        false
      ≠ CatalogOutcome.cbErr "getaddrinfo ENOTFOUND download.geonames.org" := by
  decide

/-- C4 (amended): the Indexing Pipeline surfaces a missing data file through
the callback and the Batch Downloader surfaces any failed download through
the callback, but the Country Catalog Loader registers no error handler on
its download/parse stream: a catalog failure never reaches the callback and
instead escapes as an unhandled stream error (carrying the original error, so
it is not silently discarded — it just bypasses the completion channel). -/
theorem C4_error_propagation_amended :
    (∀ (e : String) (b : Bool),
        getGeoNameCountries (Except.error e) b = CatalogOutcome.uncaught e
        ∧ ∀ s, getGeoNameCountries (Except.error e) b ≠ CatalogOutcome.cbErr s)
    ∧ (∀ (cfg : LocalCfg) (v : JSVal) (opts : Options)
        (fsy : String → Option (List (List String)))
        (store : Nat → Option (Option String)),
        ccInvalid v = false → fsy (addPath cfg v) = none →
        addFileToElastic cfg v opts fsy store
          = [Ev.fsOpen (addPath cfg v),
            Ev.cbErr ("Missing datafile for " ++ addCode v ++ " at "
              ++ addPath cfg v)])
    ∧ (∀ (countries : List String) (parallel : Option Nat)
        (dl : String → Option String),
        countries ≠ [] →
        (∀ c ∈ countries, (strUpper c).length = 2) →
        (∃ c ∈ countries, dl (geonameUrl (strUpper c ++ ".zip")) ≠ none) →
        isDlCbErr (finalDlEv (downloadGeoNameCountryFiles countries parallel dl))
          = true) := by
  refine ⟨?_, ?_, ?_⟩
  · intro e b
    exact ⟨rfl, fun s h => CatalogOutcome.noConfusion h⟩
  · intro cfg v opts fsy store hcc hfs
    exact addFileToElastic_missing hcc hfs opts store
  · intro countries parallel dl hne hvalid hex
    have h1 : ¬ countries.isEmpty := by simpa using hne
    have h2 : ¬ countries.any (fun c => (strUpper c).length ≠ 2) := by
      simp only [List.any_eq_true, decide_eq_true_eq, not_exists]
      intro c hc
      exact hc.2 (hvalid c hc.1)
    rw [downloadGeoNameCountryFiles, if_neg h1, if_neg h2]
    apply waveRunF_fail (effParallel parallel) dl (effParallel_pos parallel)
      countries.length (countries.map (fun c => geonameUrl (strUpper c ++ ".zip"))) 0
    · simp
    · simp [hne]
    · obtain ⟨c, hc, hbad⟩ := hex
      exact ⟨geonameUrl (strUpper c ++ ".zip"), List.mem_map_of_mem _ hc, hbad⟩

/-- Witness for the amended C4: a two-URL run whose second download fails ends
in the error callback. -/
theorem C4_error_propagation_amended_witness :
    isDlCbErr (finalDlEv (downloadGeoNameCountryFiles ["AA", "AB"] (some 1)
        (fun u => if u = geonameUrl "AB.zip" then some "socket hang up" else none)))
      = true :=
  C4_error_propagation_amended.2.2 ["AA", "AB"] (some 1)
    (fun u => if u = geonameUrl "AB.zip" then some "socket hang up" else none)
    (by decide) (by decide) (by decide)

/-- C8: the downloader partitions the derived URL list into consecutive waves
of the parallelism size (the last wave holding the remainder), runs the waves
strictly in sequence — each wave's pre-hook, downloads and post-hook complete
before the next wave starts — and on full success reports a count equal to
the number of input URLs; with parallelism 5 and 12 URLs the waves have sizes
5, 5, 2. -/
theorem C8_wave_partitioning :
    (∀ (p : Nat) (dl : String → Option String) (fuel fp : Nat) (left : List String),
        1 ≤ p → left.length ≤ fuel → (∀ u ∈ left, dl u = none) →
        waveRunF p dl fuel fp left = wavesTrace fp (chunksOf p left))
    ∧ (∀ (p : Nat) (left : List String), 1 ≤ p →
        concatWaves (chunksOf p left) = left)
    ∧ (∀ (p : Nat) (left : List String) (w : List String), 1 ≤ p →
        w ∈ chunksOf p left → w ≠ [] ∧ w.length ≤ p)
    ∧ (∀ (p : Nat) (left : List String) (w : List String), 1 ≤ p →
        w ∈ (chunksOf p left).dropLast → w.length = p)
    ∧ (∀ (p : Nat) (dl : String → Option String) (fuel fp : Nat) (left : List String),
        1 ≤ p → left.length ≤ fuel → (∀ u ∈ left, dl u = none) →
        finalDlEv (waveRunF p dl fuel fp left) = some (DlEv.cbOk (fp + left.length)))
    ∧ ((chunksOf 5 demoUrls12).map List.length = [5, 5, 2])
    ∧ (downloadGeoNameCountryFiles demoCountries12 (some 5) (fun _ => none)
        = wavesTrace 0 (chunksOf 5 demoUrls12))
    ∧ (finalDlEv (downloadGeoNameCountryFiles demoCountries12 (some 5)
        (fun _ => none)) = some (DlEv.cbOk 12)) := by
  refine ⟨?_, ?_, ?_, ?_, ?_, by decide, by decide, by decide⟩
  · intro p dl fuel fp left hp hfuel hok
    exact waveRunF_ok p dl hp fuel left fp hfuel hok
  · intro p left hp
    exact concatWaves_chunksOf p hp left.length left (Nat.le_refl _)
  · intro p left w hp hw
    exact chunksOf_mem p hp left.length left w (Nat.le_refl _) hw
  · intro p left w hp hw
    exact chunksOf_dropLast p hp left.length left w (Nat.le_refl _) hw
  · intro p dl fuel fp left hp hfuel hok
    rw [waveRunF_ok p dl hp fuel left fp hfuel hok, finalDlEv_wavesTrace]
    rw [wavesLen_eq, concatWaves_chunksOf p hp left.length left (Nat.le_refl _)]

/-- Witness for C8 at parallelism 5 over the 12 demo URLs with every
download succeeding. -/
theorem C8_wave_partitioning_witness :
    waveRunF 5 (fun _ => none) 12 0 demoUrls12 = wavesTrace 0 (chunksOf 5 demoUrls12) :=
  C8_wave_partitioning.1 5 (fun _ => none) 12 0 demoUrls12 (by decide) (by decide)
    (fun _ _ => rfl)

/-- Field spec of a successful setElasticPath call: the index segment goes to
`local.elasticIndex`, the type segment to the never-read `local.elasticPath`,
and `local.elasticType` and `local.dataPath` are untouched. -/
theorem setElasticPath_ok_spec {cfg : LocalCfg} {s : String} {cfg2 : LocalCfg}
    (h : setElasticPath cfg (JSVal.str s) = Except.ok cfg2) :
    cfg2.elasticType = cfg.elasticType
    ∧ cfg2.elasticIndex = (jsSplitStr s '/').getD 0 ""
    ∧ cfg2.elasticPath = some ((jsSplitStr s '/').getD 1 "")
    ∧ cfg2.dataPath = cfg.dataPath := by
  simp only [setElasticPath] at h
  split at h
  · exact absurd h (by simp)
  · split at h
    · exact absurd h (by simp)
    · have h2 := Except.ok.inj h
      subst h2
      exact ⟨rfl, rfl, rfl, rfl⟩

theorem applyElasticPathUpdate_type (cfg : LocalCfg) (s : String) :
    (applyElasticPathUpdate cfg s).elasticType = cfg.elasticType := by
  unfold applyElasticPathUpdate
  cases h : setElasticPath cfg (JSVal.str s) with
  | ok c => exact (setElasticPath_ok_spec h).1
  | error e => rfl

theorem applyElasticPathUpdates_type :
    ∀ (ss : List String) (cfg : LocalCfg),
      (applyElasticPathUpdates cfg ss).elasticType = cfg.elasticType := by
  intro ss
  induction ss with
  | nil => intro cfg; rfl
  | cons s t ih =>
    intro cfg
    show (applyElasticPathUpdates (applyElasticPathUpdate cfg s) t).elasticType = _
    rw [ih, applyElasticPathUpdate_type]

/-- C9: a valid "index/type" argument to setElasticPath updates only the
index identifier used by later bulk directives; the type segment lands in the
`local.elasticPath` field, which the pipeline never reads, `local.elasticType`
is never reassigned, and therefore every bulk directive emitted by
addFileToElastic carries the default type "geoname" no matter what
elasticPath updates were applied. -/
theorem C9_elastic_path_type_frame :
    (∀ (cfg : LocalCfg) (s : String) (cfg2 : LocalCfg),
        setElasticPath cfg (JSVal.str s) = Except.ok cfg2 →
        cfg2.elasticType = cfg.elasticType
        ∧ cfg2.elasticIndex = (jsSplitStr s '/').getD 0 ""
        ∧ cfg2.elasticPath = some ((jsSplitStr s '/').getD 1 "")
        ∧ cfg2.dataPath = cfg.dataPath)
    ∧ (∀ (cfg : LocalCfg) (x : Option String) (v : JSVal) (opts : Options)
        (fsy : String → Option (List (List String)))
        (store : Nat → Option (Option String)),
        addFileToElastic { cfg with elasticPath := x } v opts fsy store
          = addFileToElastic cfg v opts fsy store)
    ∧ (∀ ss : List String,
        (applyElasticPathUpdates defaultLocal ss).elasticType = "geoname")
    ∧ (∀ (ss : List String) (v : JSVal) (opts : Options)
        (fsy : String → Option (List (List String)))
        (store : Nat → Option (Option String))
        (fin : Bool) (buf : List Entry) (pr : Nat) (ok : Bool) (after : List Entry),
        Ev.storeBulk fin buf pr ok after
          ∈ addFileToElastic (applyElasticPathUpdates defaultLocal ss) v opts fsy store →
        ∀ e ∈ buf, entryType e = some "geoname" ∨ entryType e = none) := by
  refine ⟨fun cfg s cfg2 h => setElasticPath_ok_spec h, ?_, ?_, ?_⟩
  · intro cfg x v opts fsy store
    rfl
  · intro ss
    exact applyElasticPathUpdates_type ss defaultLocal
  · intro ss v opts fsy store fin buf pr ok after hmem e he
    by_cases hcc : ccInvalid v
    · rw [addFileToElastic_invalid hcc] at hmem
      simp at hmem
    · have hcc2 : ccInvalid v = false := by simpa using hcc
      cases hfs : fsy (addPath (applyElasticPathUpdates defaultLocal ss) v) with
      | none =>
        rw [addFileToElastic_missing hcc2 hfs] at hmem
        simp at hmem
      | some l =>
        rw [addFileToElastic_run hcc2 hfs] at hmem
        simp only [List.mem_cons] at hmem
        rcases hmem with h2 | h2
        · exact Ev.noConfusion h2
        · obtain ⟨⟨rs2, hrs2, hbuf⟩, hiff⟩ :=
            runAux_bulk_shape (applyElasticPathUpdates defaultLocal ss).elasticIndex
              (applyElasticPathUpdates defaultLocal ss).elasticType
              (2 * effectiveBufferRecords opts.bufferRecords) opts.classFilters
              (addStore v store) l [] 0 0 0 fin buf pr ok after h2
          subst hbuf
          have h3 := flatPairs_entryType
            (applyElasticPathUpdates defaultLocal ss).elasticIndex
            (applyElasticPathUpdates defaultLocal ss).elasticType rs2 e he
          have h4 : (applyElasticPathUpdates defaultLocal ss).elasticType = "geoname" := by
            rw [applyElasticPathUpdates_type]
            rfl
          rwa [h4] at h3

/-- Witness for C9 at a concrete path update "places/poi": only the index
changes; the type segment lands in the never-read elasticPath field. -/
theorem C9_elastic_path_type_frame_witness :
    setElasticPath defaultLocal (JSVal.str "places/poi")
      = Except.ok { defaultLocal with elasticIndex := "places", elasticPath := some "poi" }
    ∧ (({ defaultLocal with elasticIndex := "places", elasticPath := some "poi" } :
          LocalCfg).elasticType = defaultLocal.elasticType
      ∧ ({ defaultLocal with elasticIndex := "places", elasticPath := some "poi" } :
          LocalCfg).elasticIndex = (jsSplitStr "places/poi" '/').getD 0 ""
      ∧ ({ defaultLocal with elasticIndex := "places", elasticPath := some "poi" } :
          LocalCfg).elasticPath = some ((jsSplitStr "places/poi" '/').getD 1 "")
      ∧ ({ defaultLocal with elasticIndex := "places", elasticPath := some "poi" } :
          LocalCfg).dataPath = defaultLocal.dataPath) :=
  ⟨by rfl,
    C9_elastic_path_type_frame.1 defaultLocal "places/poi"
      { defaultLocal with elasticIndex := "places", elasticPath := some "poi" } (by rfl)⟩

end Geolistic
